import Mathlib

/-!
# Verification of the PointPillars C++ core (`src/point_pillars.cpp`)

This file contains a shallow embedding, over exact rational arithmetic, of the
two operations exported by `point_pillars.cpp`:

* `createPillars`   (spatial binning + pillar feature encoding), and
* `createPillarsTarget` (anchor matching / target encoding), together with the
  geometry engine (`rotatedX`/`rotatedY`, `boundingBox3DToTopDown`,
  Sutherland–Hodgman clipping, shoelace `polygonArea`, `iou`) it is built on.

Modelling conventions:

* C++ `float` values are modelled as `ℚ` and float arithmetic as exact rational
  arithmetic.  Transcendental library calls (`sin`, `cos`, `sqrt`, `log`) and
  the constant `M_PI` have no exact rational counterpart, so the embedding is
  parameterised by an `Ops` record providing them; concrete instantiations used
  in witnesses supply functions that agree with the real functions at every
  point at which the concrete run evaluates them.  `std::fmod` is algebraic
  (`x - y * trunc(x / y)`) and is embedded exactly as `qfmod`.
* Rational division is total with `q / 0 = 0`.  The places where the C++ code
  can divide by zero (documented in the spec as unguarded) are analysed
  separately with the `FpVal` type, which models the relevant IEEE-754
  special-value behaviour (`±Inf`, `NaN`) of the same formulas.
* The claim about the angle reduction written to channel 7 is an identity of
  real trigonometry; it is stated over `ℝ` with `Real.sin` for the function
  `channel7value` translated from the same source lines.
* Output tensors are modelled as total functions from indices to values,
  zero-initialised, with each C++ `mutable_at` store embedded as a functional
  update; the `unordered_map` used for binning is modelled as an association
  list keyed in first-insertion order (point order within a cell, which is the
  semantically relevant order, is preserved exactly).
-/

namespace PointPillars

/-! ## Basic numeric helpers -/

/-- Truncation toward zero, the rounding used by C `fmod`. -/
def truncQ (q : ℚ) : ℤ := if 0 ≤ q then ⌊q⌋ else ⌈q⌉

/-- Exact embedding of `std::fmod` on rationals: `fmod(x, y) = x - y * trunc(x / y)`. -/
def qfmod (x y : ℚ) : ℚ := x - y * (truncQ (x / y) : ℚ)

/-- Embedding of the `clamp` template at the top of `point_pillars.cpp`:
`(v < lo) ? lo : (hi < v) ? hi : v`. -/
def clampQ (v lo hi : ℚ) : ℚ := if v < lo then lo else if hi < v then hi else v

/-- Embedding of the integer `clip(n, lower, upper) = max(lower, min(n, upper))` helper. -/
def clipI (n lower upper : ℤ) : ℤ := max lower (min n upper)

/-- The list of integers `a, a+1, ..., b-1` (empty when `b ≤ a`), used to model
`for (int i = a; i < b; i++)` loops. -/
def intRange (a b : ℤ) : List ℤ := (List.range (b - a).toNat).map (fun n => a + (n : ℤ))

/-- Row-major enumeration of the cell window `[xStart, xEnd) × [yStart, yEnd)`,
`x` in the outer loop, matching the nested loops in the source. -/
def cellList (xStart xEnd yStart yEnd : ℤ) : List (ℤ × ℤ) :=
  ((intRange xStart xEnd).map
    (fun xId => (intRange yStart yEnd).map (fun yId => (xId, yId)))).flatten

/-! ## `createPillars`: data model -/

/-- Embedding of `struct PillarPoint` (4-column variant). -/
structure PillarPoint where
  x : ℚ
  y : ℚ
  z : ℚ
  intensity : ℚ
  xc : ℚ
  yc : ℚ
  zc : ℚ
deriving DecidableEq, Repr

/-- Embedding of `struct PillarPointRGB` (7-column variant). -/
structure PillarPointRGB where
  x : ℚ
  y : ℚ
  z : ℚ
  intensity : ℚ
  xc : ℚ
  yc : ℚ
  zc : ℚ
  r : ℚ
  g : ℚ
  b : ℚ
deriving DecidableEq, Repr

/-- Scalar parameters of `createPillars` (the capacities are C `int`s used only
as loop bounds, modelled as `ℕ`). -/
structure PParams where
  maxPointsPerPillar : ℕ
  maxPillars : ℕ
  xStep : ℚ
  yStep : ℚ
  xMin : ℚ
  xMax : ℚ
  yMin : ℚ
  yMax : ℚ
  zMin : ℚ
  zMax : ℚ
  minDistance : ℚ
deriving DecidableEq, Repr

/-- Pillar feature tensor, `(pillarId, pointId, channel) ↦ value`.  The leading
batch dimension of the C++ tensor has extent 1 and index constantly 0, so it is
omitted. -/
def PTensor : Type := ℕ → ℕ → ℕ → ℚ

/-- Pillar index tensor `(pillarId, component) ↦ value` (batch dimension
likewise omitted). -/
def ITensor : Type := ℕ → ℕ → ℤ

/-- The zero-initialised feature tensor. -/
def zeroP : PTensor := fun _ _ _ => 0

/-- The zero-initialised index tensor. -/
def zeroI : ITensor := fun _ _ => 0

/-- A single `tensor.mutable_at(0, i, j, c) = v` store. -/
def writeP (t : PTensor) (i j c : ℕ) (v : ℚ) : PTensor :=
  fun i' j' c' => if i' = i ∧ j' = j ∧ c' = c then v else t i' j' c'

/-- A single `indices.mutable_at(0, i, k) = v` store. -/
def writeI (t : ITensor) (i k : ℕ) (v : ℤ) : ITensor :=
  fun i' k' => if i' = i ∧ k' = k then v else t i' k'

/-! ## `createPillars`: spatial binning -/

/-- The integer cell key `floor((x - xMin)/xStep), floor((y - yMin)/yStep)`. -/
def keyOf (P : PParams) (x y : ℚ) : ℤ × ℤ :=
  (⌊(x - P.xMin) / P.xStep⌋, ⌊(y - P.yMin) / P.yStep⌋)

/-- The rejection test of the 4-column loop (`point_pillars.cpp` lines 80–86):
out-of-bounds coordinates, or (when `minDistance > 0`) squared planar distance
below `minDistance²`. -/
def reject4 (P : PParams) (x y z : ℚ) : Prop :=
  x < P.xMin ∨ x ≥ P.xMax ∨ y < P.yMin ∨ y ≥ P.yMax ∨ z < P.zMin ∨ z ≥ P.zMax ∨
    (P.minDistance > 0 ∧ x ^ 2 + y ^ 2 < P.minDistance ^ 2)

instance (P : PParams) (x y z : ℚ) : Decidable (reject4 P x y z) := by
  unfold reject4; infer_instance

/-- The rejection test of the 7-column loop (`point_pillars.cpp` lines 227–231):
bounds only — this branch has no `minDistance` test. -/
def reject7 (P : PParams) (x y z : ℚ) : Prop :=
  x < P.xMin ∨ x ≥ P.xMax ∨ y < P.yMin ∨ y ≥ P.yMax ∨ z < P.zMin ∨ z ≥ P.zMax

instance (P : PParams) (x y z : ℚ) : Decidable (reject7 P x y z) := by
  unfold reject7; infer_instance

/-- Embedding of the store `map[key].emplace_back(p)` on the association-list model of the
`unordered_map`: append to the existing cell, else append a fresh cell. -/
def insertPt {π : Type} (k : ℤ × ℤ) (p : π) :
    List ((ℤ × ℤ) × List π) → List ((ℤ × ℤ) × List π)
  | [] => [(k, [p])]
  | (k', ps) :: rest =>
      if k' = k then (k', ps ++ [p]) :: rest else (k', ps) :: insertPt k p rest

/-- One iteration of the 4-column binning loop; `row` is one row of the input
array, read through `points.at(i, ·)`. -/
def binStep4 (P : PParams) (m : List ((ℤ × ℤ) × List PillarPoint)) (row : List ℚ) :
    List ((ℤ × ℤ) × List PillarPoint) :=
  if reject4 P (row.getD 0 0) (row.getD 1 0) (row.getD 2 0) then m
  else insertPt (keyOf P (row.getD 0 0) (row.getD 1 0))
    ⟨row.getD 0 0, row.getD 1 0, row.getD 2 0, clampQ (row.getD 3 0) 0 1, 0, 0, 0⟩ m

/-- The whole 4-column binning loop (`point_pillars.cpp` lines 78–104). -/
def binPoints4 (P : PParams) (rows : List (List ℚ)) : List ((ℤ × ℤ) × List PillarPoint) :=
  rows.foldl (binStep4 P) []

/-- One iteration of the 7-column binning loop. -/
def binStep7 (P : PParams) (m : List ((ℤ × ℤ) × List PillarPointRGB)) (row : List ℚ) :
    List ((ℤ × ℤ) × List PillarPointRGB) :=
  if reject7 P (row.getD 0 0) (row.getD 1 0) (row.getD 2 0) then m
  else insertPt (keyOf P (row.getD 0 0) (row.getD 1 0))
    ⟨row.getD 0 0, row.getD 1 0, row.getD 2 0, clampQ (row.getD 3 0) 0 1, 0, 0, 0,
      row.getD 4 0, row.getD 5 0, row.getD 6 0⟩ m

/-- The whole 7-column binning loop (`point_pillars.cpp` lines 225–253). -/
def binPoints7 (P : PParams) (rows : List (List ℚ)) : List ((ℤ × ℤ) × List PillarPointRGB) :=
  rows.foldl (binStep7 P) []

/-! ## `createPillars`: pillar emission -/

/-- Mean of the `x` components of a cell's points (and analogously below);
the loop sums and divides by `pair.second.size()`. -/
def xMeanOf (ps : List PillarPoint) : ℚ := (ps.map (fun p => p.x)).sum / (ps.length : ℚ)

def yMeanOf (ps : List PillarPoint) : ℚ := (ps.map (fun p => p.y)).sum / (ps.length : ℚ)

def zMeanOf (ps : List PillarPoint) : ℚ := (ps.map (fun p => p.z)).sum / (ps.length : ℚ)

/-- The in-place update `p.xc = p.x - xMean; ...` applied to every point of a cell. -/
def offsetPoints (ps : List PillarPoint) : List PillarPoint :=
  ps.map (fun p =>
    { p with xc := p.x - xMeanOf ps, yc := p.y - yMeanOf ps, zc := p.z - zMeanOf ps })

/-- The cell x-index recomputed from the centroid
(`xIndex = floor((xMean - xMin)/xStep)`, `point_pillars.cpp` line 161). -/
def pillarXIdx (P : PParams) (ps : List PillarPoint) : ℤ := ⌊(xMeanOf ps - P.xMin) / P.xStep⌋

/-- The cell y-index recomputed from the centroid. -/
def pillarYIdx (P : PParams) (ps : List PillarPoint) : ℤ := ⌊(yMeanOf ps - P.yMin) / P.yStep⌋

/-- The feature row written for one point of a pillar whose recomputed cell
index is `(xIdx, yIdx)` (`point_pillars.cpp` lines 176–189), channels 0–8. -/
def featureOf4 (P : PParams) (xIdx yIdx : ℤ) (p : PillarPoint) : ℕ → ℚ
  | 0 => p.x
  | 1 => p.y
  | 2 => p.z
  | 3 => p.intensity
  | 4 => p.xc
  | 5 => p.yc
  | 6 => p.zc
  | 7 => p.x - ((xIdx : ℚ) * P.xStep + P.xMin)
  | 8 => p.y - ((yIdx : ℚ) * P.yStep + P.yMin)
  | _ => 0

/-- The nine stores for one point of a 4-column pillar. -/
def emitPoint4 (P : PParams) (t : PTensor) (i j : ℕ) (xIdx yIdx : ℤ) (p : PillarPoint) :
    PTensor :=
  writeP (writeP (writeP (writeP (writeP (writeP (writeP (writeP (writeP t
    i j 0 p.x) i j 1 p.y) i j 2 p.z) i j 3 p.intensity) i j 4 p.xc) i j 5 p.yc)
    i j 6 p.zc) i j 7 (p.x - ((xIdx : ℚ) * P.xStep + P.xMin)))
    i j 8 (p.y - ((yIdx : ℚ) * P.yStep + P.yMin))

/-- The inner point loop for one 4-column pillar, breaking once
`pointId >= maxPointsPerPillar`. -/
def emitPoints4 (P : PParams) (i : ℕ) (xIdx yIdx : ℤ) :
    PTensor → ℕ → List PillarPoint → PTensor
  | t, _, [] => t
  | t, j, p :: rest =>
      if P.maxPointsPerPillar ≤ j then t
      else emitPoints4 P i xIdx yIdx (emitPoint4 P t i j xIdx yIdx p) (j + 1) rest

/-- The per-pillar loop of the 4-column branch (`point_pillars.cpp` lines
133–198): centroid, offsets, recomputed cell index from the centroid, index
tensor stores, then the point loop. -/
def emitPillars4 (P : PParams) :
    List ((ℤ × ℤ) × List PillarPoint) → ℕ → PTensor → ITensor → PTensor × ITensor
  | [], _, t, ind => (t, ind)
  | (_, ps) :: rest, i, t, ind =>
      if P.maxPillars ≤ i then (t, ind)
      else
        emitPillars4 P rest (i + 1)
          (emitPoints4 P i (pillarXIdx P ps) (pillarYIdx P ps) t 0 (offsetPoints ps))
          (writeI (writeI ind i 1 (pillarXIdx P ps)) i 2 (pillarYIdx P ps))

/-- The complete 4-column pipeline: binning followed by emission into the
zero-initialised tensors. -/
def createPillars4 (P : PParams) (rows : List (List ℚ)) : PTensor × ITensor :=
  emitPillars4 P (binPoints4 P rows) 0 zeroP zeroI

/-- Mean of the `x` components for the RGB variant. -/
def xMeanOf7 (ps : List PillarPointRGB) : ℚ := (ps.map (fun p => p.x)).sum / (ps.length : ℚ)

def yMeanOf7 (ps : List PillarPointRGB) : ℚ := (ps.map (fun p => p.y)).sum / (ps.length : ℚ)

def zMeanOf7 (ps : List PillarPointRGB) : ℚ := (ps.map (fun p => p.z)).sum / (ps.length : ℚ)

def offsetPoints7 (ps : List PillarPointRGB) : List PillarPointRGB :=
  ps.map (fun p =>
    { p with xc := p.x - xMeanOf7 ps, yc := p.y - yMeanOf7 ps, zc := p.z - zMeanOf7 ps })

/-- The cell x-index recomputed from the centroid (RGB variant). -/
def pillarXIdx7 (P : PParams) (ps : List PillarPointRGB) : ℤ := ⌊(xMeanOf7 ps - P.xMin) / P.xStep⌋

/-- The cell y-index recomputed from the centroid (RGB variant). -/
def pillarYIdx7 (P : PParams) (ps : List PillarPointRGB) : ℤ := ⌊(yMeanOf7 ps - P.yMin) / P.yStep⌋

/-- The feature row of the RGB variant, channels 0–11
(`point_pillars.cpp` lines 326–343). -/
def featureOf7 (P : PParams) (xIdx yIdx : ℤ) (p : PillarPointRGB) : ℕ → ℚ
  | 0 => p.x
  | 1 => p.y
  | 2 => p.z
  | 3 => p.intensity
  | 4 => p.xc
  | 5 => p.yc
  | 6 => p.zc
  | 7 => p.x - ((xIdx : ℚ) * P.xStep + P.xMin)
  | 8 => p.y - ((yIdx : ℚ) * P.yStep + P.yMin)
  | 9 => p.r
  | 10 => p.g
  | 11 => p.b
  | _ => 0

/-- The twelve stores for one point of a 7-column pillar. -/
def emitPoint7 (P : PParams) (t : PTensor) (i j : ℕ) (xIdx yIdx : ℤ) (p : PillarPointRGB) :
    PTensor :=
  writeP (writeP (writeP (writeP (writeP (writeP (writeP (writeP (writeP (writeP (writeP
    (writeP t
    i j 0 p.x) i j 1 p.y) i j 2 p.z) i j 3 p.intensity) i j 4 p.xc) i j 5 p.yc)
    i j 6 p.zc) i j 7 (p.x - ((xIdx : ℚ) * P.xStep + P.xMin)))
    i j 8 (p.y - ((yIdx : ℚ) * P.yStep + P.yMin))) i j 9 p.r) i j 10 p.g) i j 11 p.b

def emitPoints7 (P : PParams) (i : ℕ) (xIdx yIdx : ℤ) :
    PTensor → ℕ → List PillarPointRGB → PTensor
  | t, _, [] => t
  | t, j, p :: rest =>
      if P.maxPointsPerPillar ≤ j then t
      else emitPoints7 P i xIdx yIdx (emitPoint7 P t i j xIdx yIdx p) (j + 1) rest

def emitPillars7 (P : PParams) :
    List ((ℤ × ℤ) × List PillarPointRGB) → ℕ → PTensor → ITensor → PTensor × ITensor
  | [], _, t, ind => (t, ind)
  | (_, ps) :: rest, i, t, ind =>
      if P.maxPillars ≤ i then (t, ind)
      else
        emitPillars7 P rest (i + 1)
          (emitPoints7 P i (pillarXIdx7 P ps) (pillarYIdx7 P ps) t 0 (offsetPoints7 ps))
          (writeI (writeI ind i 1 (pillarXIdx7 P ps)) i 2 (pillarYIdx7 P ps))

def createPillars7 (P : PParams) (rows : List (List ℚ)) : PTensor × ITensor :=
  emitPillars7 P (binPoints7 P rows) 0 zeroP zeroI

/-- Result of the `createPillars` entry point.  `noReturn` models the control
path on which the C++ function reaches its closing brace without executing any
`return` statement (the input's second dimension is neither 4 nor 7): no
exception is thrown and, C++ being what it is, the behaviour is undefined. -/
inductive CreatePillarsResult where
  | ok4 (tensor : PTensor) (indices : ITensor)
  | ok7 (tensor : PTensor) (indices : ITensor)
  | inputError (msg : String)
  | noReturn

/-- Returns `true` exactly on the two normal-return constructors. -/
def CreatePillarsResult.returnsNormally : CreatePillarsResult → Bool
  | .ok4 _ _ => true
  | .ok7 _ _ => true
  | _ => false

/-- Returns `true` exactly on the thrown-`runtime_error` constructor. -/
def CreatePillarsResult.isInputError : CreatePillarsResult → Bool
  | .inputError _ => true
  | _ => false

/-- Embedding of the `createPillars` entry point (`point_pillars.cpp` lines
55–366).  `ndim` and `cols` model `points.ndim()` and `points.shape()[1]`.
The branch structure is exactly the source's: an outer `if (shape[1] == 4)`
/ `else if (shape[1] == 7)` with no final `else`, and inside each branch a
shape check that can only fail through `ndim != 2`. -/
def createPillars (P : PParams) (ndim : ℕ) (rows : List (List ℚ)) (cols : ℕ) :
    CreatePillarsResult :=
  if cols = 4 then
    if ndim ≠ 2 ∨ cols ≠ 4 then
      .inputError ("numpy array with shape (n, 4) expected (n being the number of points)")
    else
      let r := createPillars4 P rows
      .ok4 r.1 r.2
  else if cols = 7 then
    if ndim ≠ 2 ∨ cols ≠ 7 then
      .inputError ("numpy array with shape (n, 7) expected (n being the number of points)")
    else
      let r := createPillars7 P rows
      .ok7 r.1 r.2
  else
    .noReturn

/-! ## Geometry engine -/

/-- The transcendental operations and the constant `M_PI` that the embedding is
parameterised by (see the header). -/
structure Ops where
  pi : ℚ
  sin : ℚ → ℚ
  cos : ℚ → ℚ
  sqrt : ℚ → ℚ
  log : ℚ → ℚ

/-- Embedding of `struct BoundingBox3D`. -/
structure BBox where
  x : ℚ
  y : ℚ
  z : ℚ
  length : ℚ
  width : ℚ
  height : ℚ
  yaw : ℚ
  base_yaw : ℚ
  classId : ℚ
deriving DecidableEq, Repr

/-- The value-initialised `BoundingBox3D box = {};`: every member zero
(the `base_yaw` default member initialiser is `0.0` as well). -/
def zeroBox : BBox := ⟨0, 0, 0, 0, 0, 0, 0, 0, 0⟩

/-- Embedding of `rotatedX(x, y, angle) = x cos(angle) - y sin(angle)`. -/
def rotatedX (ops : Ops) (x y angle : ℚ) : ℚ := x * ops.cos angle - y * ops.sin angle

/-- Embedding of `rotatedY(x, y, angle) = x sin(angle) + y cos(angle)`. -/
def rotatedY (ops : Ops) (x y angle : ℚ) : ℚ := x * ops.sin angle + y * ops.cos angle

/-- Embedding of `boundingBox3DToTopDown`: the four corners, in the source's
order. -/
def boundingBox3DToTopDown (ops : Ops) (b : BBox) : List (ℚ × ℚ) :=
  [ (rotatedX ops (-(1 / 2) * b.length) ((1 / 2) * b.width) b.yaw + b.x,
     rotatedY ops (-(1 / 2) * b.length) ((1 / 2) * b.width) b.yaw + b.y),
    (rotatedX ops ((1 / 2) * b.length) ((1 / 2) * b.width) b.yaw + b.x,
     rotatedY ops ((1 / 2) * b.length) ((1 / 2) * b.width) b.yaw + b.y),
    (rotatedX ops ((1 / 2) * b.length) (-(1 / 2) * b.width) b.yaw + b.x,
     rotatedY ops ((1 / 2) * b.length) (-(1 / 2) * b.width) b.yaw + b.y),
    (rotatedX ops (-(1 / 2) * b.length) (-(1 / 2) * b.width) b.yaw + b.x,
     rotatedY ops (-(1 / 2) * b.length) (-(1 / 2) * b.width) b.yaw + b.y) ]

/-- Embedding of `xIntersect`: x-coordinate of the intersection of two lines.  Rational
division is total (`q / 0 = 0`); the C++ code divides floats and a parallel
configuration yields inf/NaN there, a documented unguarded edge case. -/
def xIntersect (x1 y1 x2 y2 x3 y3 x4 y4 : ℚ) : ℚ :=
  ((x1 * y2 - y1 * x2) * (x3 - x4) - (x1 - x2) * (x3 * y4 - y3 * x4)) /
    ((x1 - x2) * (y3 - y4) - (y1 - y2) * (x3 - x4))

/-- Embedding of `yIntersect`: y-coordinate of the intersection of two lines. -/
def yIntersect (x1 y1 x2 y2 x3 y3 x4 y4 : ℚ) : ℚ :=
  ((x1 * y2 - y1 * x2) * (y3 - y4) - (y1 - y2) * (x3 * y4 - y3 * x4)) /
    ((x1 - x2) * (y3 - y4) - (y1 - y2) * (x3 - x4))

/-- The shoelace accumulation of `polygonArea`: the sum of
`(x_j + x_i)(y_j - y_i)` over consecutive vertices, `j` being the predecessor
of `i` and the predecessor of vertex 0 being the last vertex. -/
def shoelaceSum (pj : ℚ × ℚ) : List (ℚ × ℚ) → ℚ
  | [] => 0
  | p :: rest => (pj.1 + p.1) * (pj.2 - p.2) + shoelaceSum p rest

/-- Embedding of `polygonArea`: `|sum / 2|`; an empty polygon's loop body never
runs, so its area is 0. -/
def polygonArea (poly : List (ℚ × ℚ)) : ℚ :=
  match poly.getLast? with
  | none => 0
  | some pl => |shoelaceSum pl poly / 2|

/-- The list of consecutive vertex pairs `(poly[i], poly[(i+1) % n])`. -/
def pairsCyc {α : Type} (xs : List α) : List (α × α) := xs.zip (xs.drop 1 ++ xs.take 1)

/-- One polygon edge processed against one clip edge — the body of the loop in
the C++ `clip` function, with its four sign cases. -/
def clipStep (x1 y1 x2 y2 : ℚ) (pr : (ℚ × ℚ) × (ℚ × ℚ)) : List (ℚ × ℚ) :=
  let ix := pr.1.1
  let iy := pr.1.2
  let kx := pr.2.1
  let ky := pr.2.2
  let iPos := (x2 - x1) * (iy - y1) - (y2 - y1) * (ix - x1)
  let kPos := (x2 - x1) * (ky - y1) - (y2 - y1) * (kx - x1)
  if iPos < 0 ∧ kPos < 0 then [(kx, ky)]
  else if 0 ≤ iPos ∧ kPos < 0 then
    [(xIntersect x1 y1 x2 y2 ix iy kx ky, yIntersect x1 y1 x2 y2 ix iy kx ky), (kx, ky)]
  else if iPos < 0 ∧ 0 ≤ kPos then
    [(xIntersect x1 y1 x2 y2 ix iy kx ky, yIntersect x1 y1 x2 y2 ix iy kx ky)]
  else []

/-- Embedding of the C++ `clip(poly_points, x1, y1, x2, y2)` function: clip all
edges of a polygon against one clip edge. -/
def clipPolyline (poly : List (ℚ × ℚ)) (x1 y1 x2 y2 : ℚ) : List (ℚ × ℚ) :=
  ((pairsCyc poly).map (clipStep x1 y1 x2 y2)).flatten

/-- Embedding of `sutherlandHodgmanClip`: clip the subject against every edge
of the clipper in turn. -/
def sutherlandHodgmanClip (subject clipper : List (ℚ × ℚ)) : List (ℚ × ℚ) :=
  (pairsCyc clipper).foldl (fun acc e => clipPolyline acc e.1.1 e.1.2 e.2.1 e.2.2) subject

/-- Embedding of `iou`: overlap area over union area. -/
def iou (ops : Ops) (b1 b2 : BBox) : ℚ :=
  let v1 := boundingBox3DToTopDown ops b1
  let v2 := boundingBox3DToTopDown ops b2
  let c := sutherlandHodgmanClip v1 v2
  polygonArea c / (polygonArea v1 + polygonArea v2 - polygonArea c)

/-! ## `createPillarsTarget`: data model -/

/-- The full argument list of `createPillarsTarget`.  `printTime` (diagnostic
printing only) is omitted; `nbClasses`, `zMin`, `zMax` are accepted and unused,
as in the source. -/
structure TargetInput where
  objectPositions : List (ℚ × ℚ × ℚ)
  objectDimensions : List (ℚ × ℚ × ℚ)
  objectYaws : List ℚ
  objectClassIds : List ℤ
  anchorDimensions : List (ℚ × ℚ × ℚ)
  anchorZHeights : List ℚ
  anchorYaws : List ℚ
  positiveThreshold : ℚ
  negativeThreshold : ℚ
  angleThreshold : ℚ
  nbClasses : ℤ
  downscalingFactor : ℤ
  xStep : ℚ
  yStep : ℚ
  xMin : ℚ
  xMax : ℚ
  yMin : ℚ
  yMax : ℚ
  zMin : ℚ
  zMax : ℚ

/-- The factor `downscalingFactor` as a rational. -/
def dfQ (inp : TargetInput) : ℚ := (inp.downscalingFactor : ℚ)

/-- The grid width `xSize = floor((xMax - xMin) / (xStep * downscalingFactor))`. -/
def xSizeOf (inp : TargetInput) : ℤ := ⌊(inp.xMax - inp.xMin) / (inp.xStep * dfQ inp)⌋

/-- The grid height `ySize = floor((yMax - yMin) / (yStep * downscalingFactor))`. -/
def ySizeOf (inp : TargetInput) : ℤ := ⌊(inp.yMax - inp.yMin) / (inp.yStep * dfQ inp)⌋

/-- The target tensor `(objectCount, xId, yId, anchorCount, channel) ↦ value`. -/
def Tensor : Type := ℤ → ℤ → ℤ → ℤ → ℤ → ℚ

/-- The zero-initialised target tensor. -/
def zeroT : Tensor := fun _ _ _ _ _ => 0

/-- One `tensor.mutable_at(o, x, y, a, c) = v` store. -/
def writeT (t : Tensor) (o x y a c : ℤ) (v : ℚ) : Tensor :=
  fun o' x' y' a' c' =>
    if o' = o ∧ x' = x ∧ y' = y ∧ a' = a ∧ c' = c then v else t o' x' y' a' c'

/-- The anchor parsing loop (`point_pillars.cpp` lines 589–604): a zeroed box
with dimensions, z, and yaw (also recorded as `base_yaw`) from the input arrays. -/
def mkAnchors (inp : TargetInput) : List BBox :=
  (List.range inp.anchorDimensions.length).map (fun i =>
    { zeroBox with
        length := (inp.anchorDimensions.getD i (0, 0, 0)).1,
        width := (inp.anchorDimensions.getD i (0, 0, 0)).2.1,
        height := (inp.anchorDimensions.getD i (0, 0, 0)).2.2,
        z := inp.anchorZHeights.getD i 0,
        yaw := inp.anchorYaws.getD i 0,
        base_yaw := inp.anchorYaws.getD i 0 })

/-- The per-anchor diagonals `sqrt(width² + length²)` precomputed alongside. -/
def mkDiagonals (ops : Ops) (inp : TargetInput) : List ℚ :=
  inp.anchorDimensions.map (fun d => ops.sqrt (d.2.1 ^ 2 + d.1 ^ 2))

/-- The label parsing loop (`point_pillars.cpp` lines 606–627): boxes whose
planar center lies outside `[xMin, xMax) × [yMin, yMax)` are skipped. -/
def mkLabels (inp : TargetInput) : List BBox :=
  (List.range inp.objectDimensions.length).filterMap (fun i =>
    if (inp.objectPositions.getD i (0, 0, 0)).1 < inp.xMin ∨
       (inp.objectPositions.getD i (0, 0, 0)).1 ≥ inp.xMax ∨
       (inp.objectPositions.getD i (0, 0, 0)).2.1 < inp.yMin ∨
       (inp.objectPositions.getD i (0, 0, 0)).2.1 ≥ inp.yMax then
      none
    else
      some { x := (inp.objectPositions.getD i (0, 0, 0)).1,
             y := (inp.objectPositions.getD i (0, 0, 0)).2.1,
             z := (inp.objectPositions.getD i (0, 0, 0)).2.2,
             length := (inp.objectDimensions.getD i (0, 0, 0)).1,
             width := (inp.objectDimensions.getD i (0, 0, 0)).2.1,
             height := (inp.objectDimensions.getD i (0, 0, 0)).2.2,
             yaw := inp.objectYaws.getD i 0, base_yaw := 0,
             classId := (inp.objectClassIds.getD i 0 : ℚ) })

/-! ## `createPillarsTarget`: anchor search -/

/-- The working copy of an anchor placed at cell-world coordinates `(x, y)`:
its yaw is overridden to the label's yaw when the non-oriented residual
`fmod(labelYaw - base_yaw, π)` is within `angleThreshold` of 0 or of π
(`point_pillars.cpp` lines 674–691). -/
def placeAnchor (ops : Ops) (inp : TargetInput) (lb a : BBox) (x y : ℚ) : BBox :=
  let d := qfmod (lb.yaw - a.base_yaw) ops.pi
  let yaw' := if |d| < inp.angleThreshold ∨ ops.pi - |d| < inp.angleThreshold
              then lb.yaw else a.base_yaw
  { a with x := x, y := y, yaw := yaw' }

/-- State threaded through the search loops: running maximum IOU, its anchor
(as placed) and anchor index, and the tensor. -/
structure SState where
  maxIou : ℚ
  bestAnchor : BBox
  bestAnchorId : ℤ
  t : Tensor

/-- The ten stores of a threshold-exceeding positive assignment
(`point_pillars.cpp` lines 704–744); `a` is the placed anchor working copy. -/
def posWrites (ops : Ops) (lb : BBox) (o xId yId aId : ℤ)
    (a : BBox) (diag : ℚ) (t : Tensor) : Tensor :=
  let dNo := qfmod (lb.yaw - a.base_yaw) ops.pi
  let dO := qfmod (lb.yaw - a.base_yaw) (2 * ops.pi)
  let t := writeT t o xId yId aId 0 1
  let t := writeT t o xId yId aId 1 ((lb.x - a.x) / diag)
  let t := writeT t o xId yId aId 2 ((lb.y - a.y) / diag)
  let t := writeT t o xId yId aId 3 ((lb.z - a.z) / a.height)
  let t := writeT t o xId yId aId 4 (ops.log (lb.length / a.length))
  let t := writeT t o xId yId aId 5 (ops.log (lb.width / a.width))
  let t := writeT t o xId yId aId 6 (ops.log (lb.height / a.height))
  let t := writeT t o xId yId aId 7 (ops.sin (if ops.pi / 2 < |dNo| then -dNo else dNo))
  let t := writeT t o xId yId aId 8
    (if |dO| < ops.pi / 2 ∧ 3 / 2 * ops.pi < |dO| then 1 else 0)
  writeT t o xId yId aId 9 lb.classId

/-- One anchor evaluated at one candidate cell (`point_pillars.cpp` lines
672–756): place the working copy, compute the IOU, update the best tracker,
and write a positive / negative / ignore classification. -/
def stepAnchor (ops : Ops) (inp : TargetInput) (lb : BBox) (diags : List ℚ)
    (o xId yId : ℤ) (x y : ℚ) (st : SState) (ai : ℤ × BBox) : SState :=
  let a := placeAnchor ops inp lb ai.2 x y
  let iouOverlap := iou ops a lb
  let best :=
    if st.maxIou < iouOverlap then (iouOverlap, a, ai.1)
    else (st.maxIou, st.bestAnchor, st.bestAnchorId)
  let t' :=
    if inp.positiveThreshold < iouOverlap then
      posWrites ops lb o xId yId ai.1 a (diags.getD ai.1.toNat 0) st.t
    else if iouOverlap < inp.negativeThreshold then
      writeT st.t o xId yId ai.1 0 0
    else
      writeT st.t o xId yId ai.1 0 (-1)
  ⟨best.1, best.2.1, best.2.2, t'⟩

/-- The anchor list with its running `anchorCount` index. -/
def enumI (xs : List BBox) : List (ℤ × BBox) :=
  (List.range xs.length).map (fun i => (Int.ofNat i, xs.getD i zeroBox))

/-- All anchors evaluated at one candidate cell. -/
def searchCell (ops : Ops) (inp : TargetInput) (lb : BBox) (diags : List ℚ)
    (anchors : List BBox) (o : ℤ) (st : SState) (cell : ℤ × ℤ) : SState :=
  let x := (cell.1 : ℚ) * inp.xStep * dfQ inp + inp.xMin
  let y := (cell.2 : ℚ) * inp.yStep * dfQ inp + inp.yMin
  (enumI anchors).foldl (stepAnchor ops inp lb diags o cell.1 cell.2 x y) st

/-- The candidate cell window for one label (`point_pillars.cpp` lines
647–659): `offset = ceil(diameter / (xStep * downscalingFactor))` (the x step
is used for both axes, as in the source), clipped to the grid. -/
def searchWindow (ops : Ops) (inp : TargetInput) (lb : BBox) : ℤ × ℤ × ℤ × ℤ :=
  let objectDiameter := ops.sqrt (lb.width ^ 2 + lb.length ^ 2)
  let offset : ℤ := ⌈objectDiameter / (inp.xStep * dfQ inp)⌉
  let xC : ℤ := ⌊(lb.x - inp.xMin) / (inp.xStep * dfQ inp)⌋
  let yC : ℤ := ⌊(lb.y - inp.yMin) / (inp.yStep * dfQ inp)⌋
  (clipI (xC - offset) 0 (xSizeOf inp), clipI (xC + offset) 0 (xSizeOf inp),
   clipI (yC - offset) 0 (ySizeOf inp), clipI (yC + offset) 0 (ySizeOf inp))

/-- The state after the whole search loop for one label, starting from
`maxIou = 0`, a value-initialised best anchor, and `bestAnchorId = 0`. -/
def searchStateOf (ops : Ops) (inp : TargetInput) (anchors : List BBox)
    (diags : List ℚ) (lb : BBox) (o : ℤ) (t : Tensor) : SState :=
  let w := searchWindow ops inp lb
  (cellList w.1 w.2.1 w.2.2.1 w.2.2.2).foldl
    (searchCell ops inp lb diags anchors o) ⟨0, zeroBox, 0, t⟩

/-! ## `createPillarsTarget`: fallback assignment -/

/-- The unclipped home cell index `floor((lb.x - xMin)/(xStep * df))`. -/
def homeXId0 (inp : TargetInput) (lb : BBox) : ℤ :=
  ⌊(lb.x - inp.xMin) / (inp.xStep * dfQ inp)⌋

def homeYId0 (inp : TargetInput) (lb : BBox) : ℤ :=
  ⌊(lb.y - inp.yMin) / (inp.yStep * dfQ inp)⌋

/-- The clipped home cell `clip(xId_0, 0, xSize - 1)`. -/
def homeXId (inp : TargetInput) (lb : BBox) : ℤ := clipI (homeXId0 inp lb) 0 (xSizeOf inp - 1)

def homeYId (inp : TargetInput) (lb : BBox) : ℤ := clipI (homeYId0 inp lb) 0 (ySizeOf inp - 1)

/-- The body of the fallback double loop (`point_pillars.cpp` lines 777–851)
at one offset `(dx, dy)`: at `(0, 0)` the forced positive assignment against
the best anchor, at other offsets whose unclipped cell is still inside the
grid an ignore store on the best anchor's channel. -/
def fallbackStep (ops : Ops) (inp : TargetInput) (lb : BBox) (o xId0 yId0 : ℤ)
    (best : BBox) (bid : ℤ) (t : Tensor) (d : ℤ × ℤ) : Tensor :=
  let xId := clipI (xId0 + d.1) 0 (xSizeOf inp - 1)
  let yId := clipI (yId0 + d.2) 0 (ySizeOf inp - 1)
  if d.1 = 0 ∧ d.2 = 0 then
    let diag := ops.sqrt (best.width ^ 2 + best.length ^ 2)
    let x := (xId : ℚ) * inp.xStep * dfQ inp + inp.xMin
    let y := (yId : ℚ) * inp.yStep * dfQ inp + inp.yMin
    let dNo := qfmod (lb.yaw - best.base_yaw) ops.pi
    let dO := qfmod (lb.yaw - best.base_yaw) (2 * ops.pi)
    let t := writeT t o xId yId bid 0 1
    let t := writeT t o xId yId bid 1 ((lb.x - x) / diag)
    let t := writeT t o xId yId bid 2 ((lb.y - y) / diag)
    let t := writeT t o xId yId bid 3 ((lb.z - best.z) / best.height)
    let t := writeT t o xId yId bid 4 (ops.log (lb.length / best.length))
    let t := writeT t o xId yId bid 5 (ops.log (lb.width / best.width))
    let t := writeT t o xId yId bid 6 (ops.log (lb.height / best.height))
    let t := writeT t o xId yId bid 7 (ops.sin (if ops.pi / 2 < |dNo| then -dNo else dNo))
    let t := writeT t o xId yId bid 8
      (if |dO| < ops.pi / 2 ∧ 3 / 2 * ops.pi < |dO| then 1 else 0)
    writeT t o xId yId bid 9 lb.classId
  else if 0 ≤ xId0 + d.1 ∧ xId0 + d.1 < xSizeOf inp ∧
          0 ≤ yId0 + d.2 ∧ yId0 + d.2 < ySizeOf inp then
    writeT t o xId yId bid 0 (-1)
  else t

/-- The fallback offsets `dx = -2..2` (outer), `dy = -2..2` (inner). -/
def offsetList : List (ℤ × ℤ) := cellList (-2) 3 (-2) 3

/-- The whole fallback loop for one label. -/
def fallbackLoop (ops : Ops) (inp : TargetInput) (lb : BBox) (o : ℤ)
    (best : BBox) (bid : ℤ) (t : Tensor) : Tensor :=
  offsetList.foldl (fallbackStep ops inp lb o (homeXId0 inp lb) (homeYId0 inp lb) best bid) t

/-- One label processed end to end: the search over the candidate window, then
the fallback when no candidate exceeded `positiveThreshold`. -/
def processObject (ops : Ops) (inp : TargetInput) (anchors : List BBox)
    (diags : List ℚ) (lb : BBox) (o : ℤ) (t : Tensor) : Tensor :=
  let st := searchStateOf ops inp anchors diags lb o t
  if st.maxIou < inp.positiveThreshold then
    fallbackLoop ops inp lb o st.bestAnchor st.bestAnchorId st.t
  else st.t

/-- The outer per-object loop, threading `objectCount`. -/
def processAllObjects (ops : Ops) (inp : TargetInput) (anchors : List BBox)
    (diags : List ℚ) : List BBox → ℤ → Tensor → Tensor
  | [], _, t => t
  | lb :: rest, o, t =>
      processAllObjects ops inp anchors diags rest (o + 1)
        (processObject ops inp anchors diags lb o t)

/-- Result of the `createPillarsTarget` entry point. -/
inductive TargetResult where
  | ok (t : Tensor)
  | error (msg : String)

/-- The tensor payload of a normal return (zero tensor on the error paths,
used only to state concrete-input theorems without binders). -/
def tensorOfResult : TargetResult → Tensor
  | .ok t => t
  | .error _ => zeroT

/-- Embedding of the `createPillarsTarget` entry point (`point_pillars.cpp`
lines 553–875). -/
def createPillarsTarget (ops : Ops) (inp : TargetInput) : TargetResult :=
  if inp.anchorDimensions.length ≤ 0 then .error ("Anchor length is zero")
  else if inp.objectDimensions.length ≤ 0 then .error ("Object length is zero")
  else
    .ok (processAllObjects ops inp (mkAnchors inp) (mkDiagonals ops inp)
      (mkLabels inp) 0 zeroT)

/-! ## IEEE-754 special values for the unguarded divisions

The embedding above is exact rational arithmetic, in which `q / 0 = 0`.  The
C++ code computes the fallback regression channels in `float`, where the same
formulas produce `±Inf`/`NaN`.  `FpVal` models just enough of IEEE-754
arithmetic to express that: it is used to analyse the fallback-write formulas
of `point_pillars.cpp` lines 789–812 when the best anchor is the
value-initialised (all-zero) box. -/

/-- A finite rational, or an IEEE special value. -/
inductive FpVal where
  | fin (q : ℚ)
  | posInf
  | negInf
  | nan
deriving DecidableEq, Repr

/-- IEEE division restricted to the cases arising here: finite/finite with the
usual zero-divisor behaviour (`±x/0 = ±Inf`, `0/0 = NaN`). -/
def fpDiv : FpVal → FpVal → FpVal
  | .fin a, .fin b =>
      if b ≠ 0 then .fin (a / b)
      else if 0 < a then .posInf
      else if a < 0 then .negInf
      else .nan
  | .nan, _ => .nan
  | _, .nan => .nan
  | .posInf, .fin _ => .posInf
  | .negInf, .fin _ => .negInf
  | .fin _, .posInf => .fin 0
  | .fin _, .negInf => .fin 0
  | _, _ => .nan

/-- IEEE `log`: `log 0 = -Inf`, `log x = NaN` for `x < 0`, `log Inf = Inf`
(finite positive values are reported through `ops.log`). -/
def fpLog (ops : Ops) : FpVal → FpVal
  | .fin q => if 0 < q then .fin (ops.log q) else if q = 0 then .negInf else .nan
  | .posInf => .posInf
  | .negInf => .nan
  | .nan => .nan

/-- Returns `true` exactly on finite values. -/
def fpFinite : FpVal → Bool
  | .fin _ => true
  | _ => false

/-- IEEE-special-value reading of the fallback channel-1 store
`(labelBox.x - x) / diag` with `diag = sqrt(best.width² + best.length²)`. -/
def fpChannel1 (ops : Ops) (lb best : BBox) (x : ℚ) : FpVal :=
  fpDiv (.fin (lb.x - x)) (.fin (ops.sqrt (best.width ^ 2 + best.length ^ 2)))

/-- IEEE-special-value reading of the fallback channel-3 store
`(labelBox.z - best.z) / best.height`. -/
def fpChannel3 (lb best : BBox) : FpVal :=
  fpDiv (.fin (lb.z - best.z)) (.fin best.height)

/-- IEEE-special-value reading of the fallback channel-4 store
`log(labelBox.length / best.length)`. -/
def fpChannel4 (ops : Ops) (lb best : BBox) : FpVal :=
  fpLog ops (fpDiv (.fin lb.length) (.fin best.length))

/-- IEEE-special-value reading of the fallback channel-5 store
`log(labelBox.width / best.width)`. -/
def fpChannel5 (ops : Ops) (lb best : BBox) : FpVal :=
  fpLog ops (fpDiv (.fin lb.width) (.fin best.width))

/-- IEEE-special-value reading of the fallback channel-6 store
`log(labelBox.height / best.height)`. -/
def fpChannel6 (ops : Ops) (lb best : BBox) : FpVal :=
  fpLog ops (fpDiv (.fin lb.height) (.fin best.height))

/-! ## Real-valued embedding of the channel-7 angle reduction

The claim about channel 7 is a statement of real trigonometry (the sine of the
residual reduced to `[-π/2, π/2]`), so the formula from `point_pillars.cpp`
lines 721–725 (identical at lines 814–821) is also embedded over `ℝ` with the
genuine `Real.sin` and `Real.pi`. -/

/-- Truncation toward zero on `ℝ` (the rounding of C `fmod`). -/
noncomputable def truncR (t : ℝ) : ℤ := if 0 ≤ t then ⌊t⌋ else ⌈t⌉

/-- Embedding of `std::fmod` over `ℝ`. -/
noncomputable def rfmod (x y : ℝ) : ℝ := x - y * (truncR (x / y) : ℝ)

/-- The branch `abs(delta_yaw_no) > M_PI_2 ? -delta_yaw_no : delta_yaw_no`. -/
noncomputable def reduceAngle (d : ℝ) : ℝ := if Real.pi / 2 < |d| then -d else d

/-- The value written to channel 7 for a positive assignment:
`sin(|d| > π/2 ? -d : d)` with `d = fmod(labelYaw - anchorBaseYaw, π)`. -/
noncomputable def channel7value (labelYaw anchorBaseYaw : ℝ) : ℝ :=
  Real.sin (reduceAngle (rfmod (labelYaw - anchorBaseYaw) Real.pi))

/-! ## Helper values for stating the characterisation theorems -/

/-- The all-zero `PillarPoint`, used as a `getD` default. -/
def pZero : PillarPoint := ⟨0, 0, 0, 0, 0, 0, 0⟩

/-- The all-zero `PillarPointRGB`, used as a `getD` default. -/
def pZero7 : PillarPointRGB := ⟨0, 0, 0, 0, 0, 0, 0, 0, 0, 0⟩

/-- An empty cell, used as a `getD` default. -/
def emptyCell4 : (ℤ × ℤ) × List PillarPoint := ((0, 0), [])

/-- An empty RGB cell, used as a `getD` default. -/
def emptyCell7 : (ℤ × ℤ) × List PillarPointRGB := ((0, 0), [])

/-- The binning invariant of the 4-column map: every cell is non-empty, and
every point of a cell passed the rejection filter and hashes to the cell's key. -/
def goodCell4 (P : PParams) (e : (ℤ × ℤ) × List PillarPoint) : Prop :=
  e.2 ≠ [] ∧ ∀ p ∈ e.2, ¬ reject4 P p.x p.y p.z ∧ keyOf P p.x p.y = e.1

/-! ## Concrete instantiations used in counterexamples and witnesses

`testOps` agrees with the real transcendental functions at every point where
the concrete runs below evaluate them: all yaws involved are `0`
(`sin 0 = 0`, `cos 0 = 1`), the only squared diagonals are `25` and `0`
(`sqrt 25 = 5`, `sqrt 0 = 0`), and `log` is only applied to `1` (`log 1 = 0`);
`pi` is a positive rational stand-in, used only through comparisons that hold
for any positive value in these runs. -/
def testOps : Ops :=
  { pi := 314159 / 100000
    sin := fun _ => 0
    cos := fun _ => 1
    sqrt := fun q => if q = 25 then 5 else 0
    log := fun _ => 0 }

/-- Grid/capacity parameters used for concrete `createPillars` runs. -/
def testP : PParams :=
  { maxPointsPerPillar := 3, maxPillars := 4
    xStep := 1, yStep := 1, xMin := 0, xMax := 10, yMin := 0, yMax := 10
    zMin := -1, zMax := 1, minDistance := 5 }

/-- A 2×2 axis-aligned box at the origin. -/
def boxA9 : BBox :=
  { x := 0, y := 0, z := 0, length := 2, width := 2, height := 1,
    yaw := 0, base_yaw := 0, classId := 0 }

/-- The same box with a negative width: its top-down polygon comes out
counter-clockwise, which flips the clipper's inside test. -/
def boxB9 : BBox := { boxA9 with width := -2 }

/-- Concrete `createPillarsTarget` input for the fallback-path analysis: one
4×3 anchor, one in-bounds 4×3 label at `x = 2.9` on a 4×4 grid, and a positive
threshold (0.96) just above the best achievable IOU (39/41 ≈ 0.951), so the
fallback runs.  The label's home cell floors to `(2, 2)` while the highest-IOU
placement is at cell `(3, 2)`, so the best anchor's placement and the home
cell world coordinates differ. -/
def c1inp : TargetInput :=
  { objectPositions := [(29/10, 2, 1)]
    objectDimensions := [(4, 3, 2)]
    objectYaws := [0]
    objectClassIds := [7]
    anchorDimensions := [(4, 3, 2)]
    anchorZHeights := [1]
    anchorYaws := [0]
    positiveThreshold := 96/100
    negativeThreshold := 1/10
    angleThreshold := 0
    nbClasses := 1
    downscalingFactor := 1
    xStep := 1, yStep := 1
    xMin := 0, xMax := 4, yMin := 0, yMax := 4
    zMin := -3, zMax := 3 }

/-- The single parsed label box of `c1inp`. -/
def c1lb : BBox := (mkLabels c1inp).getD 0 zeroBox

/-- The search state after the whole candidate-window loop for `c1inp`. -/
def c1st : SState :=
  searchStateOf testOps c1inp (mkAnchors c1inp) (mkDiagonals testOps c1inp) c1lb 0 zeroT

/-- The final target tensor of the `c1inp` run. -/
def c1tensor : Tensor := tensorOfResult (createPillarsTarget testOps c1inp)

/-- The fallback offsets strictly before `(0, 0)` in loop order. -/
def preOffsets : List (ℤ × ℤ) :=
  [(-2, -2), (-2, -1), (-2, 0), (-2, 1), (-2, 2),
   (-1, -2), (-1, -1), (-1, 0), (-1, 1), (-1, 2),
   (0, -2), (0, -1)]

/-- The fallback offsets strictly after `(0, 0)` in loop order. -/
def postOffsets : List (ℤ × ℤ) :=
  [(0, 1), (0, 2),
   (1, -2), (1, -1), (1, 0), (1, 1), (1, 2),
   (2, -2), (2, -1), (2, 0), (2, 1), (2, 2)]

/-- Input `c1inp` with a second ground-truth box whose center `x = 99` lies outside
`[xMin, xMax) = [0, 4)`; used for claim C8. -/
def c8inp : TargetInput :=
  { c1inp with
      objectPositions := [(29/10, 2, 1), (99, 2, 1)]
      objectDimensions := [(4, 3, 2), (4, 3, 2)]
      objectYaws := [0, 0]
      objectClassIds := [7, 7] }

/-- Concrete `createPillarsTarget` input for claim C10: a single anchor with
zero length and zero width (so every IOU evaluates to 0 and the
value-initialised best anchor is never replaced) and one in-bounds label. -/
def c10inp : TargetInput :=
  { objectPositions := [(1/2, 1/2, 1)]
    objectDimensions := [(1, 2, 3)]
    objectYaws := [0]
    objectClassIds := [1]
    anchorDimensions := [(0, 0, 0)]
    anchorZHeights := [0]
    anchorYaws := [0]
    positiveThreshold := 1/2
    negativeThreshold := 1/4
    angleThreshold := 0
    nbClasses := 1
    downscalingFactor := 1
    xStep := 1, yStep := 1
    xMin := 0, xMax := 2, yMin := 0, yMax := 2
    zMin := -3, zMax := 3 }

/-- The single parsed label box of `c10inp`. -/
def c10lb : BBox := (mkLabels c10inp).getD 0 zeroBox

/-! # Theorems

Batteries marks `Rat.add`, `Rat.mul`, `Rat.inv` and `Rat.sub` `@[irreducible]`;
the kernel ignores reducibility, but `decide`'s elaborator-side evaluation
needs them unfolded, so they are made semireducible locally. -/

section DecideEval

attribute [local semireducible] Rat.add Rat.mul Rat.inv Rat.sub

/-- Claim C3 (code bug, evaluation at the failing input): for an input array
whose second dimension is 5, `createPillars` raises no input-validation error —
control reaches the end of the non-void function without a `return`
(undefined behaviour), modelled by `noReturn`.  For second dimension 4 or 7
with rank 2 the function returns normally, and inside the 4-column branch the
shape check does fire when the rank is not 2. -/
theorem c3_missing_validation_evaluated :
    createPillars testP 2 [[1, 2, 0, 1, 0]] 5 = CreatePillarsResult.noReturn ∧
    (createPillars testP 2 [[1, 2, 0, 1, 0]] 5).isInputError = false ∧
    (createPillars testP 2 [[1, 2, 0, 1]] 4).returnsNormally = true ∧
    (createPillars testP 2 [[1, 2, 0, 1, 1, 1, 1]] 7).returnsNormally = true ∧
    (createPillars testP 1 [[1, 2, 0, 1]] 4).isInputError = true :=
  ⟨rfl, rfl, rfl, rfl, rfl⟩

/-- Claim C9 (code bug, evaluation at the failing input): `iou` is not
symmetric on all box pairs.  For the 2×2 box at the origin and the same box
with width −2 (whose top-down polygon is the same square but traversed
counter-clockwise, flipping the clipper's inside test), the two argument
orders give 0 and 1. -/
theorem c9_iou_asymmetry_at_failing_input :
    iou testOps boxA9 boxB9 = 0 ∧ iou testOps boxB9 boxA9 = 1 := by decide

/-- Claim C4 (counterexample): with `minDistance = 5 > 0`, the 7-column point
`(1, 1, 0, 1, 1/2, 1/2, 1/2)` satisfies `x² + y² < minDistance²`, yet it is
binned and emitted — its coordinates and colour appear in the output feature
tensor, because the 7-column branch of `createPillars` has no `minDistance`
test.  This refutes the claim as stated for the 7-column variant. -/
theorem c4_counterexample :
    0 < testP.minDistance ∧
    (1 : ℚ) ^ 2 + 1 ^ 2 < testP.minDistance ^ 2 ∧
    (createPillars7 testP [[1, 1, 0, 1, 1/2, 1/2, 1/2]]).1 0 0 0 = 1 ∧
    (createPillars7 testP [[1, 1, 0, 1, 1/2, 1/2, 1/2]]).1 0 0 1 = 1 ∧
    (createPillars7 testP [[1, 1, 0, 1, 1/2, 1/2, 1/2]]).1 0 0 9 = 1/2 := by decide

set_option maxRecDepth 40000 in
/-- Claim C1 (counterexample): in the `c1inp` run the fallback fires and the
best anchor found during the search is placed at `x = 3`, while the clipped
home cell is `(2, 2)` with world x-coordinate 2.  The value the code writes to
regression channel 1 is `(2.9 - 2)/5 = 9/50`, computed against the clipped
home cell's world coordinate — not `(2.9 - 3)/5 = -1/50`, the value the claim
predicts from the best anchor's original placement coordinate. -/
theorem c1_counterexample :
    c1st.maxIou < c1inp.positiveThreshold ∧
    c1st.bestAnchor.x = 3 ∧
    homeXId c1inp c1lb = 2 ∧ homeYId c1inp c1lb = 2 ∧
    c1tensor 0 2 2 0 0 = 1 ∧
    c1tensor 0 2 2 0 1 = 9/50 ∧
    (c1lb.x - c1st.bestAnchor.x) /
        testOps.sqrt (c1st.bestAnchor.width ^ 2 + c1st.bestAnchor.length ^ 2) = -1/50 ∧
    (9/50 : ℚ) ≠ -1/50 := by decide

end DecideEval

/-! ## Range of `fmod` and the channel-7 angle reduction (claim C6) -/

/-- The value `fmod(x, y)` lies strictly between `-y` and `y` for `y > 0`. -/
theorem rfmod_bounds (x y : ℝ) (hy : 0 < y) : -y < rfmod x y ∧ rfmod x y < y := by
  have hyne : y ≠ 0 := ne_of_gt hy
  have hx : x / y * y = x := div_mul_cancel₀ x hyne
  unfold rfmod truncR
  by_cases h : 0 ≤ x / y
  · rw [if_pos h]
    have h1 : ((⌊x / y⌋ : ℤ) : ℝ) ≤ x / y := Int.floor_le _
    have h2 : x / y - 1 < ((⌊x / y⌋ : ℤ) : ℝ) := Int.sub_one_lt_floor _
    constructor <;> nlinarith
  · rw [if_neg h]
    have h1 : x / y ≤ ((⌈x / y⌉ : ℤ) : ℝ) := Int.le_ceil _
    have h2 : ((⌈x / y⌉ : ℤ) : ℝ) < x / y + 1 := Int.ceil_lt_add_one _
    constructor <;> nlinarith

/-- For a residual `d` already folded into `(-π, π)`, the branch
`|d| > π/2 ? -d : d` computes a value whose sine is the sine of the
representative of `d` modulo π lying in `[-π/2, π/2]`. -/
theorem reduceAngle_sin_eq (d : ℝ) (hlb : -Real.pi < d) (hub : d < Real.pi) :
    ∃ r : ℝ, |r| ≤ Real.pi / 2 ∧ (∃ k : ℤ, d = r + k * Real.pi) ∧
      Real.sin (reduceAngle d) = Real.sin r := by
  have hpi : (0 : ℝ) < Real.pi := Real.pi_pos
  by_cases h1 : Real.pi / 2 < d
  · refine ⟨d - Real.pi, ?_, ⟨1, by push_cast; ring⟩, ?_⟩
    · rw [abs_le]; constructor <;> linarith
    · have habs : Real.pi / 2 < |d| := lt_of_lt_of_le h1 (le_abs_self d)
      rw [reduceAngle, if_pos habs]
      have hs : Real.sin (d - Real.pi) = -Real.sin d := by
        rw [Real.sin_sub, Real.sin_pi, Real.cos_pi]; ring
      rw [hs, Real.sin_neg]
  · by_cases h2 : d < -(Real.pi / 2)
    · refine ⟨d + Real.pi, ?_, ⟨-1, by push_cast; ring⟩, ?_⟩
      · rw [abs_le]; constructor <;> linarith
      · have habs : Real.pi / 2 < |d| := by
          rw [abs_of_neg (by linarith : d < 0)]; linarith
        rw [reduceAngle, if_pos habs]
        have hs : Real.sin (d + Real.pi) = -Real.sin d := by
          rw [Real.sin_add, Real.sin_pi, Real.cos_pi]; ring
        rw [hs, Real.sin_neg]
    · refine ⟨d, ?_, ⟨0, by push_cast; ring⟩, ?_⟩
      · rw [abs_le]; constructor <;> linarith
      · have habs : ¬ Real.pi / 2 < |d| := by
          rw [not_lt, abs_le]; constructor <;> linarith
        rw [reduceAngle, if_neg habs]

/-- Claim C6 (confirmed): for every label yaw and anchor base yaw, the value
the code writes to channel 7 — `channel7value`, i.e.
`sin(|d| > π/2 ? -d : d)` with `d = fmod(labelYaw - anchorBaseYaw, π)` —
equals `sin r` where `r` is the representative of `d` modulo π lying in
`[-π/2, π/2]`: the sine of the angle residual reduced to `[-π/2, π/2]`. -/
theorem c6_channel7_sine_of_reduced_residual (labelYaw anchorBaseYaw : ℝ) :
    ∃ r : ℝ, |r| ≤ Real.pi / 2 ∧
      (∃ k : ℤ, rfmod (labelYaw - anchorBaseYaw) Real.pi = r + k * Real.pi) ∧
      channel7value labelYaw anchorBaseYaw = Real.sin r := by
  obtain ⟨hlb, hub⟩ :=
    rfmod_bounds (labelYaw - anchorBaseYaw) Real.pi Real.pi_pos
  obtain ⟨r, hr, hk, hs⟩ :=
    reduceAngle_sin_eq (rfmod (labelYaw - anchorBaseYaw) Real.pi) hlb hub
  exact ⟨r, hr, hk, hs⟩

/-! ## Generic list lemmas -/

/-- Invariants are preserved by `List.foldl`. -/
theorem foldl_invariant {σ α : Type} (f : σ → α → σ) (Q : σ → Prop)
    (h : ∀ s a, Q s → Q (f s a)) : ∀ (l : List α) (s : σ), Q s → Q (l.foldl f s) := by
  intro l
  induction l with
  | nil => intro s hs; simpa using hs
  | cons a l ih => intro s hs; exact ih _ (h s a hs)

/-- Reading `getD` through `List.map`, for an in-range index. -/
theorem getD_map {α β : Type} (g : α → β) (l : List α) (j : ℕ) (d : β) (d' : α)
    (hj : j < l.length) : (l.map g).getD j d = g (l.getD j d') := by
  induction l generalizing j with
  | nil => simp at hj
  | cons a l ih =>
    cases j with
    | zero => simp
    | succ j =>
      simp only [List.map_cons, List.getD_cons_succ]
      exact ih j (by simpa using Nat.lt_of_succ_lt_succ hj)

/-- Reading `getD` through `List.take`, for an index below the take bound. -/
theorem getD_take_of_lt {α : Type} (l : List α) (m j : ℕ) (d : α) (h : j < m) :
    (l.take m).getD j d = l.getD j d := by
  induction l generalizing m j with
  | nil => simp
  | cons a l ih =>
    cases m with
    | zero => omega
    | succ m =>
      cases j with
      | zero => simp
      | succ j => simpa using ih m j (by omega)

/-- In-range `getD` produces a member of the list. -/
theorem getD_mem {α : Type} (l : List α) (j : ℕ) (d : α) (hj : j < l.length) :
    l.getD j d ∈ l := by
  induction l generalizing j with
  | nil => simp at hj
  | cons a l ih =>
    cases j with
    | zero => simp
    | succ j =>
      simp only [List.getD_cons_succ]
      exact List.mem_cons_of_mem _ (ih j (by simpa using Nat.lt_of_succ_lt_succ hj))

/-- Lower bound on a list sum from a pointwise lower bound. -/
theorem list_sum_lb (lo : ℚ) (xs : List ℚ) (h : ∀ x ∈ xs, lo ≤ x) :
    (xs.length : ℚ) * lo ≤ xs.sum := by
  induction xs with
  | nil => simp
  | cons a l ih =>
    have ha := h a (by simp)
    have hl := ih (fun x hx => h x (by simp [hx]))
    simp only [List.sum_cons, List.length_cons]
    push_cast
    nlinarith

/-- Strict upper bound on a non-empty list sum from a pointwise strict bound. -/
theorem list_sum_ub (hi : ℚ) (xs : List ℚ) (hne : xs ≠ []) (h : ∀ x ∈ xs, x < hi) :
    xs.sum < (xs.length : ℚ) * hi := by
  induction xs with
  | nil => simp at hne
  | cons a l ih =>
    have ha := h a (by simp)
    match l, ih with
    | [], _ => simpa using ha
    | b :: l', ih =>
      have hl := ih (by simp) (fun x hx => h x (by simp [hx]))
      simp only [List.sum_cons, List.length_cons] at hl ⊢
      push_cast at hl ⊢
      nlinarith

/-- The mean of a non-empty list of values all of which lie in the cell
`[xmin + k*s, xmin + (k+1)*s)` has floor-index `k` again: the recomputation of
the cell index from the centroid gives back the binning key. -/
theorem floor_mean_eq (s xmin : ℚ) (hs : 0 < s) (k : ℤ) (xs : List ℚ) (hne : xs ≠ [])
    (hall : ∀ x ∈ xs, ⌊(x - xmin) / s⌋ = k) :
    ⌊(xs.sum / (xs.length : ℚ) - xmin) / s⌋ = k := by
  have hn : (0 : ℚ) < (xs.length : ℚ) := by
    cases xs with
    | nil => simp at hne
    | cons a l =>
        simp only [List.length_cons]
        exact_mod_cast Nat.succ_pos l.length
  have hlo : ∀ x ∈ xs, xmin + (k : ℚ) * s ≤ x := by
    intro x hx
    have h1 := (Int.floor_eq_iff.mp (hall x hx)).1
    have h2 : (k : ℚ) * s ≤ x - xmin := by
      calc (k : ℚ) * s ≤ (x - xmin) / s * s := by
            exact mul_le_mul_of_nonneg_right h1 (le_of_lt hs)
        _ = x - xmin := div_mul_cancel₀ _ (ne_of_gt hs)
    linarith
  have hhi : ∀ x ∈ xs, x < xmin + ((k : ℚ) + 1) * s := by
    intro x hx
    have h1 := (Int.floor_eq_iff.mp (hall x hx)).2
    have h2 : x - xmin < ((k : ℚ) + 1) * s := by
      calc x - xmin = (x - xmin) / s * s := (div_mul_cancel₀ _ (ne_of_gt hs)).symm
        _ < ((k : ℚ) + 1) * s := by
            apply mul_lt_mul_of_pos_right _ hs
            exact_mod_cast h1
    linarith
  have hsumlo := list_sum_lb (xmin + (k : ℚ) * s) xs hlo
  have hsumhi := list_sum_ub (xmin + ((k : ℚ) + 1) * s) xs hne hhi
  have hmlo : xmin + (k : ℚ) * s ≤ xs.sum / (xs.length : ℚ) :=
    (le_div_iff₀ hn).mpr (by nlinarith)
  have hmhi : xs.sum / (xs.length : ℚ) < xmin + ((k : ℚ) + 1) * s :=
    (div_lt_iff₀ hn).mpr (by nlinarith)
  apply Int.floor_eq_iff.mpr
  constructor
  · rw [le_div_iff₀ hs]; linarith
  · rw [div_lt_iff₀ hs]; linarith

/-! ## Characterisation of the `createPillars` emission (4-column) -/

/-- Reading the tensor after the nine stores of one point. -/
theorem emitPoint4_read (P : PParams) (t : PTensor) (i j : ℕ) (xIdx yIdx : ℤ)
    (p : PillarPoint) (i' j' c' : ℕ) :
    emitPoint4 P t i j xIdx yIdx p i' j' c' =
      if i' = i ∧ j' = j ∧ c' ≤ 8 then featureOf4 P xIdx yIdx p c' else t i' j' c' := by
  by_cases hi : i' = i
  · by_cases hj : j' = j
    · subst hi; subst hj
      match c' with
      | 0 => simp [emitPoint4, writeP, featureOf4]
      | 1 => simp [emitPoint4, writeP, featureOf4]
      | 2 => simp [emitPoint4, writeP, featureOf4]
      | 3 => simp [emitPoint4, writeP, featureOf4]
      | 4 => simp [emitPoint4, writeP, featureOf4]
      | 5 => simp [emitPoint4, writeP, featureOf4]
      | 6 => simp [emitPoint4, writeP, featureOf4]
      | 7 => simp [emitPoint4, writeP, featureOf4]
      | 8 => simp [emitPoint4, writeP, featureOf4]
      | n + 9 =>
          have h0 : n + 9 ≠ 0 := by omega
          have h1 : n + 9 ≠ 1 := by omega
          have h2 : n + 9 ≠ 2 := by omega
          have h3 : n + 9 ≠ 3 := by omega
          have h4 : n + 9 ≠ 4 := by omega
          have h5 : n + 9 ≠ 5 := by omega
          have h6 : n + 9 ≠ 6 := by omega
          have h7 : n + 9 ≠ 7 := by omega
          have h8 : n + 9 ≠ 8 := by omega
          simp [emitPoint4, writeP, h0, h1, h2, h3, h4, h5, h6, h7, h8]
    · simp [emitPoint4, writeP, hj]
  · simp [emitPoint4, writeP, hi]

/-- Reading the tensor after the point loop of one pillar, started at
`pointId = j0`. -/
theorem emitPoints4_read (P : PParams) (i : ℕ) (xIdx yIdx : ℤ) :
    ∀ (ps : List PillarPoint) (t : PTensor) (j0 : ℕ) (i' j' c' : ℕ),
    emitPoints4 P i xIdx yIdx t j0 ps i' j' c' =
      if i' = i ∧ j0 ≤ j' ∧ j' < P.maxPointsPerPillar ∧ j' - j0 < ps.length ∧ c' ≤ 8 then
        featureOf4 P xIdx yIdx (ps.getD (j' - j0) pZero) c'
      else t i' j' c' := by
  intro ps
  induction ps with
  | nil =>
      intro t j0 i' j' c'
      simp [emitPoints4]
  | cons p rest ih =>
      intro t j0 i' j' c'
      unfold emitPoints4
      by_cases hcap : P.maxPointsPerPillar ≤ j0
      · rw [if_pos hcap]
        have : ¬ (i' = i ∧ j0 ≤ j' ∧ j' < P.maxPointsPerPillar ∧
            j' - j0 < (p :: rest).length ∧ c' ≤ 8) := by
          rintro ⟨-, hj0, hjm, -, -⟩; omega
        rw [if_neg this]
      · rw [if_neg hcap]
        rw [ih, emitPoint4_read]
        by_cases hi : i' = i
        · subst hi
          by_cases hc : c' ≤ 8
          · by_cases hje : j' = j0
            · subst hje
              have hn1 : ¬ (i' = i' ∧ j' + 1 ≤ j' ∧ j' < P.maxPointsPerPillar ∧
                  j' - (j' + 1) < rest.length ∧ c' ≤ 8) := by
                rintro ⟨-, hj0, -, -, -⟩; omega
              rw [if_neg hn1, if_pos ⟨rfl, rfl, hc⟩,
                if_pos ⟨rfl, le_refl _, by omega, by simp, hc⟩]
              simp
            · by_cases hwin : j0 + 1 ≤ j' ∧ j' < P.maxPointsPerPillar ∧
                  j' - (j0 + 1) < rest.length
              · obtain ⟨hw1, hw2, hw3⟩ := hwin
                rw [if_pos ⟨rfl, hw1, hw2, hw3, hc⟩,
                  if_pos ⟨rfl, by omega, hw2, by simp; omega, hc⟩]
                have hidx : j' - j0 = (j' - (j0 + 1)) + 1 := by omega
                rw [hidx, List.getD_cons_succ]
              · have hn2 : ¬ (i' = i' ∧ j0 + 1 ≤ j' ∧ j' < P.maxPointsPerPillar ∧
                    j' - (j0 + 1) < rest.length ∧ c' ≤ 8) := by
                  rintro ⟨-, hj0, hjm, hjl, -⟩; exact hwin ⟨hj0, hjm, hjl⟩
                have hn3 : ¬ (i' = i' ∧ j' = j0 ∧ c' ≤ 8) := by
                  rintro ⟨-, hje2, -⟩; exact hje hje2
                have hn4 : ¬ (i' = i' ∧ j0 ≤ j' ∧ j' < P.maxPointsPerPillar ∧
                    j' - j0 < (p :: rest).length ∧ c' ≤ 8) := by
                  rintro ⟨-, hj0, hjm, hjl, -⟩
                  simp only [List.length_cons] at hjl
                  exact hwin ⟨by omega, hjm, by omega⟩
                rw [if_neg hn2, if_neg hn3, if_neg hn4]
          · have hn1 : ¬ (i' = i' ∧ j0 + 1 ≤ j' ∧ j' < P.maxPointsPerPillar ∧
                j' - (j0 + 1) < rest.length ∧ c' ≤ 8) := by rintro ⟨-, -, -, -, h⟩; exact hc h
            have hn2 : ¬ (i' = i' ∧ j' = j0 ∧ c' ≤ 8) := by rintro ⟨-, -, h⟩; exact hc h
            have hn3 : ¬ (i' = i' ∧ j0 ≤ j' ∧ j' < P.maxPointsPerPillar ∧
                j' - j0 < (p :: rest).length ∧ c' ≤ 8) := by rintro ⟨-, -, -, -, h⟩; exact hc h
            rw [if_neg hn1, if_neg hn2, if_neg hn3]
        · have hn1 : ¬ (i' = i ∧ j0 + 1 ≤ j' ∧ j' < P.maxPointsPerPillar ∧
              j' - (j0 + 1) < rest.length ∧ c' ≤ 8) := by rintro ⟨h, -⟩; exact hi h
          have hn2 : ¬ (i' = i ∧ j' = j0 ∧ c' ≤ 8) := by rintro ⟨h, -⟩; exact hi h
          have hn3 : ¬ (i' = i ∧ j0 ≤ j' ∧ j' < P.maxPointsPerPillar ∧
              j' - j0 < (p :: rest).length ∧ c' ≤ 8) := by rintro ⟨h, -⟩; exact hi h
          rw [if_neg hn1, if_neg hn2, if_neg hn3]

/-- The update `offsetPoints` preserves the number of points. -/
theorem offsetPoints_length (ps : List PillarPoint) : (offsetPoints ps).length = ps.length := by
  simp [offsetPoints]

/-- Reading the feature tensor after the pillar loop, started at `pillarId = i0`. -/
theorem emitPillars4_tensor_read (P : PParams) :
    ∀ (cells : List ((ℤ × ℤ) × List PillarPoint)) (i0 : ℕ) (t : PTensor) (ind : ITensor)
      (q j c : ℕ),
    (emitPillars4 P cells i0 t ind).1 q j c =
      if i0 ≤ q ∧ q < P.maxPillars ∧ q - i0 < cells.length ∧
         j < P.maxPointsPerPillar ∧ j < ((cells.getD (q - i0) emptyCell4).2).length ∧
         c ≤ 8 then
        featureOf4 P (pillarXIdx P (cells.getD (q - i0) emptyCell4).2)
          (pillarYIdx P (cells.getD (q - i0) emptyCell4).2)
          ((offsetPoints (cells.getD (q - i0) emptyCell4).2).getD j pZero) c
      else t q j c := by
  intro cells
  induction cells with
  | nil =>
      intro i0 t ind q j c
      simp [emitPillars4]
  | cons cell rest ih =>
      intro i0 t ind q j c
      obtain ⟨ck, cps⟩ := cell
      unfold emitPillars4
      by_cases hcap : P.maxPillars ≤ i0
      · rw [if_pos hcap]
        have hneg : ¬ (i0 ≤ q ∧ q < P.maxPillars ∧ q - i0 < ((ck, cps) :: rest).length ∧
            j < P.maxPointsPerPillar ∧
            j < (((ck, cps) :: rest).getD (q - i0) emptyCell4).2.length ∧ c ≤ 8) := by
          rintro ⟨h1, h2, -⟩; omega
        rw [if_neg hneg]
      · rw [if_neg hcap]
        rw [ih, emitPoints4_read]
        by_cases hq0 : q = i0
        · subst hq0
          have ho : ¬ (q + 1 ≤ q ∧ q < P.maxPillars ∧ q - (q + 1) < rest.length ∧
              j < P.maxPointsPerPillar ∧
              j < ((rest.getD (q - (q + 1)) emptyCell4).2).length ∧ c ≤ 8) := by
            rintro ⟨h1, -⟩; omega
          rw [if_neg ho]
          have hgd : (((ck, cps) :: rest).getD (q - q) emptyCell4) = (ck, cps) := by
            simp
          rw [hgd]
          by_cases hwin : j < P.maxPointsPerPillar ∧ j < cps.length ∧ c ≤ 8
          · obtain ⟨w1, w2, w3⟩ := hwin
            have hA : q = q ∧ 0 ≤ j ∧ j < P.maxPointsPerPillar ∧
                j - 0 < (offsetPoints cps).length ∧ c ≤ 8 := by
              refine ⟨rfl, Nat.zero_le _, w1, ?_, w3⟩
              rw [offsetPoints_length]; omega
            have hB : q ≤ q ∧ q < P.maxPillars ∧ q - q < ((ck, cps) :: rest).length ∧
                j < P.maxPointsPerPillar ∧ j < cps.length ∧ c ≤ 8 :=
              ⟨le_refl _, by omega, by simp, w1, w2, w3⟩
            rw [if_pos hA, if_pos hB]
            simp
          · have hA : ¬ (q = q ∧ 0 ≤ j ∧ j < P.maxPointsPerPillar ∧
                j - 0 < (offsetPoints cps).length ∧ c ≤ 8) := by
              rintro ⟨-, -, a1, a2, a3⟩
              rw [offsetPoints_length] at a2
              exact hwin ⟨a1, by omega, a3⟩
            have hB : ¬ (q ≤ q ∧ q < P.maxPillars ∧ q - q < ((ck, cps) :: rest).length ∧
                j < P.maxPointsPerPillar ∧ j < cps.length ∧ c ≤ 8) := by
              rintro ⟨-, -, -, a1, a2, a3⟩
              exact hwin ⟨a1, a2, a3⟩
            rw [if_neg hA, if_neg hB]
        · have hA : ¬ (q = i0 ∧ 0 ≤ j ∧ j < P.maxPointsPerPillar ∧
              j - 0 < (offsetPoints cps).length ∧ c ≤ 8) := by
            rintro ⟨h, -⟩; exact hq0 h
          rw [if_neg hA]
          by_cases hql : q < i0
          · have h1 : ¬ (i0 + 1 ≤ q ∧ q < P.maxPillars ∧ q - (i0 + 1) < rest.length ∧
                j < P.maxPointsPerPillar ∧
                j < ((rest.getD (q - (i0 + 1)) emptyCell4).2).length ∧ c ≤ 8) := by
              rintro ⟨h, -⟩; omega
            have h3 : ¬ (i0 ≤ q ∧ q < P.maxPillars ∧ q - i0 < ((ck, cps) :: rest).length ∧
                j < P.maxPointsPerPillar ∧
                j < ((((ck, cps) :: rest).getD (q - i0) emptyCell4).2).length ∧ c ≤ 8) := by
              rintro ⟨h, -⟩; omega
            rw [if_neg h1, if_neg h3]
          · have hq1 : i0 + 1 ≤ q := by omega
            have hgd : (((ck, cps) :: rest).getD (q - i0) emptyCell4)
                = rest.getD (q - (i0 + 1)) emptyCell4 := by
              rw [show q - i0 = (q - (i0 + 1)) + 1 from by omega, List.getD_cons_succ]
            rw [hgd]
            by_cases hwin : q < P.maxPillars ∧ q - (i0 + 1) < rest.length ∧
                j < P.maxPointsPerPillar ∧
                j < ((rest.getD (q - (i0 + 1)) emptyCell4).2).length ∧ c ≤ 8
            · obtain ⟨w1, w2, w3, w4, w5⟩ := hwin
              have hC : i0 + 1 ≤ q ∧ q < P.maxPillars ∧ q - (i0 + 1) < rest.length ∧
                  j < P.maxPointsPerPillar ∧
                  j < ((rest.getD (q - (i0 + 1)) emptyCell4).2).length ∧ c ≤ 8 :=
                ⟨hq1, w1, w2, w3, w4, w5⟩
              have hD : i0 ≤ q ∧ q < P.maxPillars ∧ q - i0 < ((ck, cps) :: rest).length ∧
                  j < P.maxPointsPerPillar ∧
                  j < ((rest.getD (q - (i0 + 1)) emptyCell4).2).length ∧ c ≤ 8 :=
                ⟨by omega, w1, by simp only [List.length_cons]; omega, w3, w4, w5⟩
              rw [if_pos hC, if_pos hD]
            · have hC : ¬ (i0 + 1 ≤ q ∧ q < P.maxPillars ∧ q - (i0 + 1) < rest.length ∧
                  j < P.maxPointsPerPillar ∧
                  j < ((rest.getD (q - (i0 + 1)) emptyCell4).2).length ∧ c ≤ 8) := by
                rintro ⟨-, h⟩; exact hwin h
              have hD : ¬ (i0 ≤ q ∧ q < P.maxPillars ∧
                  q - i0 < ((ck, cps) :: rest).length ∧ j < P.maxPointsPerPillar ∧
                  j < ((rest.getD (q - (i0 + 1)) emptyCell4).2).length ∧ c ≤ 8) := by
                rintro ⟨-, a1, a2, a3, a4, a5⟩
                simp only [List.length_cons] at a2
                exact hwin ⟨a1, by omega, a3, a4, a5⟩
              rw [if_neg hC, if_neg hD]

/-- Reading the index tensor after the pillar loop. -/
theorem emitPillars4_ind_read (P : PParams) :
    ∀ (cells : List ((ℤ × ℤ) × List PillarPoint)) (i0 : ℕ) (t : PTensor) (ind : ITensor)
      (q k : ℕ),
    (emitPillars4 P cells i0 t ind).2 q k =
      if i0 ≤ q ∧ q < P.maxPillars ∧ q - i0 < cells.length ∧ (k = 1 ∨ k = 2) then
        (if k = 1 then pillarXIdx P (cells.getD (q - i0) emptyCell4).2
         else pillarYIdx P (cells.getD (q - i0) emptyCell4).2)
      else ind q k := by
  intro cells
  induction cells with
  | nil =>
      intro i0 t ind q k
      simp [emitPillars4]
  | cons cell rest ih =>
      intro i0 t ind q k
      obtain ⟨ck, cps⟩ := cell
      unfold emitPillars4
      by_cases hcap : P.maxPillars ≤ i0
      · rw [if_pos hcap]
        have hneg : ¬ (i0 ≤ q ∧ q < P.maxPillars ∧ q - i0 < ((ck, cps) :: rest).length ∧
            (k = 1 ∨ k = 2)) := by rintro ⟨h1, h2, -⟩; omega
        rw [if_neg hneg]
      · rw [if_neg hcap]
        rw [ih]
        by_cases hq0 : q = i0
        · subst hq0
          have ho : ¬ (q + 1 ≤ q ∧ q < P.maxPillars ∧ q - (q + 1) < rest.length ∧
              (k = 1 ∨ k = 2)) := by rintro ⟨h1, -⟩; omega
          rw [if_neg ho]
          have hgd : (((ck, cps) :: rest).getD (q - q) emptyCell4) = (ck, cps) := by simp
          rw [hgd]
          by_cases hk : k = 1 ∨ k = 2
          · have hB : q ≤ q ∧ q < P.maxPillars ∧ q - q < ((ck, cps) :: rest).length ∧
                (k = 1 ∨ k = 2) := ⟨le_refl _, by omega, by simp, hk⟩
            rw [if_pos hB]
            rcases hk with hk | hk
            · subst hk; simp [writeI]
            · subst hk; simp [writeI]
          · have hB : ¬ (q ≤ q ∧ q < P.maxPillars ∧ q - q < ((ck, cps) :: rest).length ∧
                (k = 1 ∨ k = 2)) := by rintro ⟨-, -, -, h⟩; exact hk h
            rw [if_neg hB]
            have hk1 : ¬ k = 1 := fun h => hk (Or.inl h)
            have hk2 : ¬ k = 2 := fun h => hk (Or.inr h)
            simp [writeI, hk1, hk2]
        · have hwr : writeI (writeI ind i0 1 (pillarXIdx P cps)) i0 2 (pillarYIdx P cps) q k
              = ind q k := by
            simp [writeI, hq0]
          rw [hwr]
          by_cases hql : q < i0
          · rw [if_neg (show ¬ (i0 + 1 ≤ q ∧ q < P.maxPillars ∧
                q - (i0 + 1) < rest.length ∧ (k = 1 ∨ k = 2)) from by rintro ⟨h, -⟩; omega),
              if_neg (show ¬ (i0 ≤ q ∧ q < P.maxPillars ∧
                q - i0 < ((ck, cps) :: rest).length ∧ (k = 1 ∨ k = 2)) from by
                  rintro ⟨h, -⟩; omega)]
          · have hgd : (((ck, cps) :: rest).getD (q - i0) emptyCell4)
                = rest.getD (q - (i0 + 1)) emptyCell4 := by
              rw [show q - i0 = (q - (i0 + 1)) + 1 from by omega, List.getD_cons_succ]
            rw [hgd]
            by_cases hwin : q < P.maxPillars ∧ q - (i0 + 1) < rest.length ∧ (k = 1 ∨ k = 2)
            · obtain ⟨w1, w2, w3⟩ := hwin
              have hC : i0 + 1 ≤ q ∧ q < P.maxPillars ∧ q - (i0 + 1) < rest.length ∧
                  (k = 1 ∨ k = 2) := ⟨by omega, w1, w2, w3⟩
              have hD : i0 ≤ q ∧ q < P.maxPillars ∧ q - i0 < ((ck, cps) :: rest).length ∧
                  (k = 1 ∨ k = 2) := ⟨by omega, w1, by simp only [List.length_cons]; omega, w3⟩
              rw [if_pos hC, if_pos hD]
            · have hC : ¬ (i0 + 1 ≤ q ∧ q < P.maxPillars ∧ q - (i0 + 1) < rest.length ∧
                  (k = 1 ∨ k = 2)) := by rintro ⟨-, h⟩; exact hwin h
              have hD : ¬ (i0 ≤ q ∧ q < P.maxPillars ∧
                  q - i0 < ((ck, cps) :: rest).length ∧ (k = 1 ∨ k = 2)) := by
                rintro ⟨-, a1, a2, a3⟩
                simp only [List.length_cons] at a2
                exact hwin ⟨a1, by omega, a3⟩
              rw [if_neg hC, if_neg hD]


/-- Reading the tensor after the twelve stores of one RGB point. -/
theorem emitPoint7_read (P : PParams) (t : PTensor) (i j : ℕ) (xIdx yIdx : ℤ)
    (p : PillarPointRGB) (i' j' c' : ℕ) :
    emitPoint7 P t i j xIdx yIdx p i' j' c' =
      if i' = i ∧ j' = j ∧ c' ≤ 11 then featureOf7 P xIdx yIdx p c' else t i' j' c' := by
  by_cases hi : i' = i
  · by_cases hj : j' = j
    · subst hi; subst hj
      match c' with
      | 0 => simp [emitPoint7, writeP, featureOf7]
      | 1 => simp [emitPoint7, writeP, featureOf7]
      | 2 => simp [emitPoint7, writeP, featureOf7]
      | 3 => simp [emitPoint7, writeP, featureOf7]
      | 4 => simp [emitPoint7, writeP, featureOf7]
      | 5 => simp [emitPoint7, writeP, featureOf7]
      | 6 => simp [emitPoint7, writeP, featureOf7]
      | 7 => simp [emitPoint7, writeP, featureOf7]
      | 8 => simp [emitPoint7, writeP, featureOf7]
      | 9 => simp [emitPoint7, writeP, featureOf7]
      | 10 => simp [emitPoint7, writeP, featureOf7]
      | 11 => simp [emitPoint7, writeP, featureOf7]
      | n + 12 =>
          have h0 : n + 12 ≠ 0 := by omega
          have h1 : n + 12 ≠ 1 := by omega
          have h2 : n + 12 ≠ 2 := by omega
          have h3 : n + 12 ≠ 3 := by omega
          have h4 : n + 12 ≠ 4 := by omega
          have h5 : n + 12 ≠ 5 := by omega
          have h6 : n + 12 ≠ 6 := by omega
          have h7 : n + 12 ≠ 7 := by omega
          have h8 : n + 12 ≠ 8 := by omega
          have h9 : n + 12 ≠ 9 := by omega
          have h10 : n + 12 ≠ 10 := by omega
          have h11 : n + 12 ≠ 11 := by omega
          simp [emitPoint7, writeP, h0, h1, h2, h3, h4, h5, h6, h7, h8, h9, h10, h11]
    · simp [emitPoint7, writeP, hj]
  · simp [emitPoint7, writeP, hi]

/-- Reading the tensor after the RGB point loop of one pillar. -/
theorem emitPoints7_read (P : PParams) (i : ℕ) (xIdx yIdx : ℤ) :
    ∀ (ps : List PillarPointRGB) (t : PTensor) (j0 : ℕ) (i' j' c' : ℕ),
    emitPoints7 P i xIdx yIdx t j0 ps i' j' c' =
      if i' = i ∧ j0 ≤ j' ∧ j' < P.maxPointsPerPillar ∧ j' - j0 < ps.length ∧ c' ≤ 11 then
        featureOf7 P xIdx yIdx (ps.getD (j' - j0) pZero7) c'
      else t i' j' c' := by
  intro ps
  induction ps with
  | nil =>
      intro t j0 i' j' c'
      simp [emitPoints7]
  | cons p rest ih =>
      intro t j0 i' j' c'
      unfold emitPoints7
      by_cases hcap : P.maxPointsPerPillar ≤ j0
      · rw [if_pos hcap]
        have : ¬ (i' = i ∧ j0 ≤ j' ∧ j' < P.maxPointsPerPillar ∧
            j' - j0 < (p :: rest).length ∧ c' ≤ 11) := by
          rintro ⟨-, hj0, hjm, -, -⟩; omega
        rw [if_neg this]
      · rw [if_neg hcap]
        rw [ih, emitPoint7_read]
        by_cases hi : i' = i
        · subst hi
          by_cases hc : c' ≤ 11
          · by_cases hje : j' = j0
            · subst hje
              have hn1 : ¬ (i' = i' ∧ j' + 1 ≤ j' ∧ j' < P.maxPointsPerPillar ∧
                  j' - (j' + 1) < rest.length ∧ c' ≤ 11) := by
                rintro ⟨-, hj0, -, -, -⟩; omega
              rw [if_neg hn1, if_pos ⟨rfl, rfl, hc⟩,
                if_pos ⟨rfl, le_refl _, by omega, by simp, hc⟩]
              simp
            · by_cases hwin : j0 + 1 ≤ j' ∧ j' < P.maxPointsPerPillar ∧
                  j' - (j0 + 1) < rest.length
              · obtain ⟨hw1, hw2, hw3⟩ := hwin
                rw [if_pos ⟨rfl, hw1, hw2, hw3, hc⟩,
                  if_pos ⟨rfl, by omega, hw2, by simp; omega, hc⟩]
                have hidx : j' - j0 = (j' - (j0 + 1)) + 1 := by omega
                rw [hidx, List.getD_cons_succ]
              · have hn2 : ¬ (i' = i' ∧ j0 + 1 ≤ j' ∧ j' < P.maxPointsPerPillar ∧
                    j' - (j0 + 1) < rest.length ∧ c' ≤ 11) := by
                  rintro ⟨-, hj0, hjm, hjl, -⟩; exact hwin ⟨hj0, hjm, hjl⟩
                have hn3 : ¬ (i' = i' ∧ j' = j0 ∧ c' ≤ 11) := by
                  rintro ⟨-, hje2, -⟩; exact hje hje2
                have hn4 : ¬ (i' = i' ∧ j0 ≤ j' ∧ j' < P.maxPointsPerPillar ∧
                    j' - j0 < (p :: rest).length ∧ c' ≤ 11) := by
                  rintro ⟨-, hj0, hjm, hjl, -⟩
                  simp only [List.length_cons] at hjl
                  exact hwin ⟨by omega, hjm, by omega⟩
                rw [if_neg hn2, if_neg hn3, if_neg hn4]
          · have hn1 : ¬ (i' = i' ∧ j0 + 1 ≤ j' ∧ j' < P.maxPointsPerPillar ∧
                j' - (j0 + 1) < rest.length ∧ c' ≤ 11) := by rintro ⟨-, -, -, -, h⟩; exact hc h
            have hn2 : ¬ (i' = i' ∧ j' = j0 ∧ c' ≤ 11) := by rintro ⟨-, -, h⟩; exact hc h
            have hn3 : ¬ (i' = i' ∧ j0 ≤ j' ∧ j' < P.maxPointsPerPillar ∧
                j' - j0 < (p :: rest).length ∧ c' ≤ 11) := by rintro ⟨-, -, -, -, h⟩; exact hc h
            rw [if_neg hn1, if_neg hn2, if_neg hn3]
        · have hn1 : ¬ (i' = i ∧ j0 + 1 ≤ j' ∧ j' < P.maxPointsPerPillar ∧
              j' - (j0 + 1) < rest.length ∧ c' ≤ 11) := by rintro ⟨h, -⟩; exact hi h
          have hn2 : ¬ (i' = i ∧ j' = j0 ∧ c' ≤ 11) := by rintro ⟨h, -⟩; exact hi h
          have hn3 : ¬ (i' = i ∧ j0 ≤ j' ∧ j' < P.maxPointsPerPillar ∧
              j' - j0 < (p :: rest).length ∧ c' ≤ 11) := by rintro ⟨h, -⟩; exact hi h
          rw [if_neg hn1, if_neg hn2, if_neg hn3]

/-- The update `offsetPoints7` preserves the number of points. -/
theorem offsetPoints7_length (ps : List PillarPointRGB) :
    (offsetPoints7 ps).length = ps.length := by
  simp [offsetPoints7]

/-- Reading the feature tensor after the RGB pillar loop. -/
theorem emitPillars7_tensor_read (P : PParams) :
    ∀ (cells : List ((ℤ × ℤ) × List PillarPointRGB)) (i0 : ℕ) (t : PTensor) (ind : ITensor)
      (q j c : ℕ),
    (emitPillars7 P cells i0 t ind).1 q j c =
      if i0 ≤ q ∧ q < P.maxPillars ∧ q - i0 < cells.length ∧
         j < P.maxPointsPerPillar ∧ j < ((cells.getD (q - i0) emptyCell7).2).length ∧
         c ≤ 11 then
        featureOf7 P (pillarXIdx7 P (cells.getD (q - i0) emptyCell7).2)
          (pillarYIdx7 P (cells.getD (q - i0) emptyCell7).2)
          ((offsetPoints7 (cells.getD (q - i0) emptyCell7).2).getD j pZero7) c
      else t q j c := by
  intro cells
  induction cells with
  | nil =>
      intro i0 t ind q j c
      simp [emitPillars7]
  | cons cell rest ih =>
      intro i0 t ind q j c
      obtain ⟨ck, cps⟩ := cell
      unfold emitPillars7
      by_cases hcap : P.maxPillars ≤ i0
      · rw [if_pos hcap]
        have hneg : ¬ (i0 ≤ q ∧ q < P.maxPillars ∧ q - i0 < ((ck, cps) :: rest).length ∧
            j < P.maxPointsPerPillar ∧
            j < (((ck, cps) :: rest).getD (q - i0) emptyCell7).2.length ∧ c ≤ 11) := by
          rintro ⟨h1, h2, -⟩; omega
        rw [if_neg hneg]
      · rw [if_neg hcap]
        rw [ih, emitPoints7_read]
        by_cases hq0 : q = i0
        · subst hq0
          have ho : ¬ (q + 1 ≤ q ∧ q < P.maxPillars ∧ q - (q + 1) < rest.length ∧
              j < P.maxPointsPerPillar ∧
              j < ((rest.getD (q - (q + 1)) emptyCell7).2).length ∧ c ≤ 11) := by
            rintro ⟨h1, -⟩; omega
          rw [if_neg ho]
          have hgd : (((ck, cps) :: rest).getD (q - q) emptyCell7) = (ck, cps) := by
            simp
          rw [hgd]
          by_cases hwin : j < P.maxPointsPerPillar ∧ j < cps.length ∧ c ≤ 11
          · obtain ⟨w1, w2, w3⟩ := hwin
            have hA : q = q ∧ 0 ≤ j ∧ j < P.maxPointsPerPillar ∧
                j - 0 < (offsetPoints7 cps).length ∧ c ≤ 11 := by
              refine ⟨rfl, Nat.zero_le _, w1, ?_, w3⟩
              rw [offsetPoints7_length]; omega
            have hB : q ≤ q ∧ q < P.maxPillars ∧ q - q < ((ck, cps) :: rest).length ∧
                j < P.maxPointsPerPillar ∧ j < cps.length ∧ c ≤ 11 :=
              ⟨le_refl _, by omega, by simp, w1, w2, w3⟩
            rw [if_pos hA, if_pos hB]
            simp
          · have hA : ¬ (q = q ∧ 0 ≤ j ∧ j < P.maxPointsPerPillar ∧
                j - 0 < (offsetPoints7 cps).length ∧ c ≤ 11) := by
              rintro ⟨-, -, a1, a2, a3⟩
              rw [offsetPoints7_length] at a2
              exact hwin ⟨a1, by omega, a3⟩
            have hB : ¬ (q ≤ q ∧ q < P.maxPillars ∧ q - q < ((ck, cps) :: rest).length ∧
                j < P.maxPointsPerPillar ∧ j < cps.length ∧ c ≤ 11) := by
              rintro ⟨-, -, -, a1, a2, a3⟩
              exact hwin ⟨a1, a2, a3⟩
            rw [if_neg hA, if_neg hB]
        · have hA : ¬ (q = i0 ∧ 0 ≤ j ∧ j < P.maxPointsPerPillar ∧
              j - 0 < (offsetPoints7 cps).length ∧ c ≤ 11) := by
            rintro ⟨h, -⟩; exact hq0 h
          rw [if_neg hA]
          by_cases hql : q < i0
          · have h1 : ¬ (i0 + 1 ≤ q ∧ q < P.maxPillars ∧ q - (i0 + 1) < rest.length ∧
                j < P.maxPointsPerPillar ∧
                j < ((rest.getD (q - (i0 + 1)) emptyCell7).2).length ∧ c ≤ 11) := by
              rintro ⟨h, -⟩; omega
            have h3 : ¬ (i0 ≤ q ∧ q < P.maxPillars ∧ q - i0 < ((ck, cps) :: rest).length ∧
                j < P.maxPointsPerPillar ∧
                j < ((((ck, cps) :: rest).getD (q - i0) emptyCell7).2).length ∧ c ≤ 11) := by
              rintro ⟨h, -⟩; omega
            rw [if_neg h1, if_neg h3]
          · have hq1 : i0 + 1 ≤ q := by omega
            have hgd : (((ck, cps) :: rest).getD (q - i0) emptyCell7)
                = rest.getD (q - (i0 + 1)) emptyCell7 := by
              rw [show q - i0 = (q - (i0 + 1)) + 1 from by omega, List.getD_cons_succ]
            rw [hgd]
            by_cases hwin : q < P.maxPillars ∧ q - (i0 + 1) < rest.length ∧
                j < P.maxPointsPerPillar ∧
                j < ((rest.getD (q - (i0 + 1)) emptyCell7).2).length ∧ c ≤ 11
            · obtain ⟨w1, w2, w3, w4, w5⟩ := hwin
              have hC : i0 + 1 ≤ q ∧ q < P.maxPillars ∧ q - (i0 + 1) < rest.length ∧
                  j < P.maxPointsPerPillar ∧
                  j < ((rest.getD (q - (i0 + 1)) emptyCell7).2).length ∧ c ≤ 11 :=
                ⟨hq1, w1, w2, w3, w4, w5⟩
              have hD : i0 ≤ q ∧ q < P.maxPillars ∧ q - i0 < ((ck, cps) :: rest).length ∧
                  j < P.maxPointsPerPillar ∧
                  j < ((rest.getD (q - (i0 + 1)) emptyCell7).2).length ∧ c ≤ 11 :=
                ⟨by omega, w1, by simp only [List.length_cons]; omega, w3, w4, w5⟩
              rw [if_pos hC, if_pos hD]
            · have hC : ¬ (i0 + 1 ≤ q ∧ q < P.maxPillars ∧ q - (i0 + 1) < rest.length ∧
                  j < P.maxPointsPerPillar ∧
                  j < ((rest.getD (q - (i0 + 1)) emptyCell7).2).length ∧ c ≤ 11) := by
                rintro ⟨-, h⟩; exact hwin h
              have hD : ¬ (i0 ≤ q ∧ q < P.maxPillars ∧
                  q - i0 < ((ck, cps) :: rest).length ∧ j < P.maxPointsPerPillar ∧
                  j < ((rest.getD (q - (i0 + 1)) emptyCell7).2).length ∧ c ≤ 11) := by
                rintro ⟨-, a1, a2, a3, a4, a5⟩
                simp only [List.length_cons] at a2
                exact hwin ⟨a1, by omega, a3, a4, a5⟩
              rw [if_neg hC, if_neg hD]

/-- Reading the index tensor after the RGB pillar loop. -/
theorem emitPillars7_ind_read (P : PParams) :
    ∀ (cells : List ((ℤ × ℤ) × List PillarPointRGB)) (i0 : ℕ) (t : PTensor) (ind : ITensor)
      (q k : ℕ),
    (emitPillars7 P cells i0 t ind).2 q k =
      if i0 ≤ q ∧ q < P.maxPillars ∧ q - i0 < cells.length ∧ (k = 1 ∨ k = 2) then
        (if k = 1 then pillarXIdx7 P (cells.getD (q - i0) emptyCell7).2
         else pillarYIdx7 P (cells.getD (q - i0) emptyCell7).2)
      else ind q k := by
  intro cells
  induction cells with
  | nil =>
      intro i0 t ind q k
      simp [emitPillars7]
  | cons cell rest ih =>
      intro i0 t ind q k
      obtain ⟨ck, cps⟩ := cell
      unfold emitPillars7
      by_cases hcap : P.maxPillars ≤ i0
      · rw [if_pos hcap]
        have hneg : ¬ (i0 ≤ q ∧ q < P.maxPillars ∧ q - i0 < ((ck, cps) :: rest).length ∧
            (k = 1 ∨ k = 2)) := by rintro ⟨h1, h2, -⟩; omega
        rw [if_neg hneg]
      · rw [if_neg hcap]
        rw [ih]
        by_cases hq0 : q = i0
        · subst hq0
          have ho : ¬ (q + 1 ≤ q ∧ q < P.maxPillars ∧ q - (q + 1) < rest.length ∧
              (k = 1 ∨ k = 2)) := by rintro ⟨h1, -⟩; omega
          rw [if_neg ho]
          have hgd : (((ck, cps) :: rest).getD (q - q) emptyCell7) = (ck, cps) := by simp
          rw [hgd]
          by_cases hk : k = 1 ∨ k = 2
          · have hB : q ≤ q ∧ q < P.maxPillars ∧ q - q < ((ck, cps) :: rest).length ∧
                (k = 1 ∨ k = 2) := ⟨le_refl _, by omega, by simp, hk⟩
            rw [if_pos hB]
            rcases hk with hk | hk
            · subst hk; simp [writeI]
            · subst hk; simp [writeI]
          · have hB : ¬ (q ≤ q ∧ q < P.maxPillars ∧ q - q < ((ck, cps) :: rest).length ∧
                (k = 1 ∨ k = 2)) := by rintro ⟨-, -, -, h⟩; exact hk h
            rw [if_neg hB]
            have hk1 : ¬ k = 1 := fun h => hk (Or.inl h)
            have hk2 : ¬ k = 2 := fun h => hk (Or.inr h)
            simp [writeI, hk1, hk2]
        · have hwr : writeI (writeI ind i0 1 (pillarXIdx7 P cps)) i0 2 (pillarYIdx7 P cps) q k
              = ind q k := by
            simp [writeI, hq0]
          rw [hwr]
          by_cases hql : q < i0
          · rw [if_neg (show ¬ (i0 + 1 ≤ q ∧ q < P.maxPillars ∧
                q - (i0 + 1) < rest.length ∧ (k = 1 ∨ k = 2)) from by rintro ⟨h, -⟩; omega),
              if_neg (show ¬ (i0 ≤ q ∧ q < P.maxPillars ∧
                q - i0 < ((ck, cps) :: rest).length ∧ (k = 1 ∨ k = 2)) from by
                  rintro ⟨h, -⟩; omega)]
          · have hgd : (((ck, cps) :: rest).getD (q - i0) emptyCell7)
                = rest.getD (q - (i0 + 1)) emptyCell7 := by
              rw [show q - i0 = (q - (i0 + 1)) + 1 from by omega, List.getD_cons_succ]
            rw [hgd]
            by_cases hwin : q < P.maxPillars ∧ q - (i0 + 1) < rest.length ∧ (k = 1 ∨ k = 2)
            · obtain ⟨w1, w2, w3⟩ := hwin
              have hC : i0 + 1 ≤ q ∧ q < P.maxPillars ∧ q - (i0 + 1) < rest.length ∧
                  (k = 1 ∨ k = 2) := ⟨by omega, w1, w2, w3⟩
              have hD : i0 ≤ q ∧ q < P.maxPillars ∧ q - i0 < ((ck, cps) :: rest).length ∧
                  (k = 1 ∨ k = 2) := ⟨by omega, w1, by simp only [List.length_cons]; omega, w3⟩
              rw [if_pos hC, if_pos hD]
            · have hC : ¬ (i0 + 1 ≤ q ∧ q < P.maxPillars ∧ q - (i0 + 1) < rest.length ∧
                  (k = 1 ∨ k = 2)) := by rintro ⟨-, h⟩; exact hwin h
              have hD : ¬ (i0 ≤ q ∧ q < P.maxPillars ∧
                  q - i0 < ((ck, cps) :: rest).length ∧ (k = 1 ∨ k = 2)) := by
                rintro ⟨-, a1, a2, a3⟩
                simp only [List.length_cons] at a2
                exact hwin ⟨a1, by omega, a3⟩
              rw [if_neg hC, if_neg hD]

/-- Reading the final 7-column feature tensor. -/
theorem createPillars7_tensor_read (P : PParams) (rows : List (List ℚ)) (q j c : ℕ) :
    (createPillars7 P rows).1 q j c =
      if q < P.maxPillars ∧ q < (binPoints7 P rows).length ∧ j < P.maxPointsPerPillar ∧
         j < (((binPoints7 P rows).getD q emptyCell7).2).length ∧ c ≤ 11 then
        featureOf7 P (pillarXIdx7 P ((binPoints7 P rows).getD q emptyCell7).2)
          (pillarYIdx7 P ((binPoints7 P rows).getD q emptyCell7).2)
          ((offsetPoints7 ((binPoints7 P rows).getD q emptyCell7).2).getD j pZero7) c
      else 0 := by
  unfold createPillars7
  rw [emitPillars7_tensor_read]
  simp only [Nat.zero_le, Nat.sub_zero, true_and]
  rfl

/-- Reading the final 7-column index tensor. -/
theorem createPillars7_ind_read (P : PParams) (rows : List (List ℚ)) (q k : ℕ) :
    (createPillars7 P rows).2 q k =
      if q < P.maxPillars ∧ q < (binPoints7 P rows).length ∧ (k = 1 ∨ k = 2) then
        (if k = 1 then pillarXIdx7 P ((binPoints7 P rows).getD q emptyCell7).2
         else pillarYIdx7 P ((binPoints7 P rows).getD q emptyCell7).2)
      else 0 := by
  unfold createPillars7
  rw [emitPillars7_ind_read]
  simp only [Nat.zero_le, Nat.sub_zero, true_and]
  rfl

/-! ## The binning invariant (4-column) -/

/-- The store `insertPt` preserves the binning invariant when the inserted point hashes
to the key it is inserted under. -/
theorem insertPt_good (P : PParams) (k : ℤ × ℤ) (p : PillarPoint)
    (hp1 : ¬ reject4 P p.x p.y p.z) (hp2 : keyOf P p.x p.y = k) :
    ∀ m, (∀ e ∈ m, goodCell4 P e) → ∀ e ∈ insertPt k p m, goodCell4 P e := by
  intro m
  induction m with
  | nil =>
      intro _ e he
      simp only [insertPt, List.mem_singleton] at he
      subst he
      refine ⟨by simp, ?_⟩
      intro q hq
      simp only [List.mem_singleton] at hq
      subst hq
      exact ⟨hp1, hp2⟩
  | cons hd tl ih =>
      intro hm e he
      obtain ⟨k', ps⟩ := hd
      unfold insertPt at he
      by_cases hk : k' = k
      · rw [if_pos hk] at he
        rcases List.mem_cons.mp he with he | he
        · subst he
          have hhd := hm (k', ps) (by simp)
          refine ⟨by simp, ?_⟩
          intro q hq
          rcases List.mem_append.mp hq with hq | hq
          · exact hhd.2 q hq
          · simp only [List.mem_singleton] at hq
            subst hq
            exact ⟨hp1, by rw [hp2, hk]⟩
        · exact hm e (List.mem_cons_of_mem _ he)
      · rw [if_neg hk] at he
        rcases List.mem_cons.mp he with he | he
        · subst he; exact hm (k', ps) (by simp)
        · exact ih (fun e' he' => hm e' (List.mem_cons_of_mem _ he')) e he

/-- One binning iteration preserves the invariant. -/
theorem binStep4_good (P : PParams) (m : List ((ℤ × ℤ) × List PillarPoint))
    (row : List ℚ) (hm : ∀ e ∈ m, goodCell4 P e) :
    ∀ e ∈ binStep4 P m row, goodCell4 P e := by
  intro e he
  unfold binStep4 at he
  by_cases hr : reject4 P (row.getD 0 0) (row.getD 1 0) (row.getD 2 0)
  · rw [if_pos hr] at he; exact hm e he
  · rw [if_neg hr] at he
    exact insertPt_good P (keyOf P (row.getD 0 0) (row.getD 1 0))
      ⟨row.getD 0 0, row.getD 1 0, row.getD 2 0, clampQ (row.getD 3 0) 0 1, 0, 0, 0⟩
      hr rfl m hm e he

/-- Every cell of the 4-column binning map satisfies the invariant. -/
theorem binPoints4_good (P : PParams) (rows : List (List ℚ)) :
    ∀ e ∈ binPoints4 P rows, goodCell4 P e := by
  unfold binPoints4
  refine foldl_invariant (binStep4 P) (fun m => ∀ e ∈ m, goodCell4 P e) ?_ rows [] ?_
  · intro m row hm
    exact binStep4_good P m row hm
  · intro e he; simp at he

/-- Reading the final 4-column feature tensor. -/
theorem createPillars4_tensor_read (P : PParams) (rows : List (List ℚ)) (q j c : ℕ) :
    (createPillars4 P rows).1 q j c =
      if q < P.maxPillars ∧ q < (binPoints4 P rows).length ∧ j < P.maxPointsPerPillar ∧
         j < (((binPoints4 P rows).getD q emptyCell4).2).length ∧ c ≤ 8 then
        featureOf4 P (pillarXIdx P ((binPoints4 P rows).getD q emptyCell4).2)
          (pillarYIdx P ((binPoints4 P rows).getD q emptyCell4).2)
          ((offsetPoints ((binPoints4 P rows).getD q emptyCell4).2).getD j pZero) c
      else 0 := by
  unfold createPillars4
  rw [emitPillars4_tensor_read]
  simp only [Nat.zero_le, Nat.sub_zero, true_and]
  rfl

/-- Reading the final 4-column index tensor. -/
theorem createPillars4_ind_read (P : PParams) (rows : List (List ℚ)) (q k : ℕ) :
    (createPillars4 P rows).2 q k =
      if q < P.maxPillars ∧ q < (binPoints4 P rows).length ∧ (k = 1 ∨ k = 2) then
        (if k = 1 then pillarXIdx P ((binPoints4 P rows).getD q emptyCell4).2
         else pillarYIdx P ((binPoints4 P rows).getD q emptyCell4).2)
      else 0 := by
  unfold createPillars4
  rw [emitPillars4_ind_read]
  simp only [Nat.zero_le, Nat.sub_zero, true_and]
  rfl

/-- For a cell of the binning map, the x-index recomputed from the centroid is
the cell's binning key (exact arithmetic: the mean of values in a half-open
cell stays in the cell). -/
theorem pillarXIdx_eq_key (P : PParams) (hx : 0 < P.xStep)
    (e : (ℤ × ℤ) × List PillarPoint) (he : goodCell4 P e) :
    pillarXIdx P e.2 = e.1.1 := by
  unfold pillarXIdx xMeanOf
  have hlen : ((e.2.length : ℕ) : ℚ) = (((e.2.map fun p => p.x).length : ℕ) : ℚ) := by simp
  rw [hlen]
  apply floor_mean_eq P.xStep P.xMin hx e.1.1 _ (by simpa using he.1)
  intro v hv
  obtain ⟨p, hp, rfl⟩ := List.mem_map.mp hv
  have := (he.2 p hp).2
  exact congrArg Prod.fst this

/-- For a cell of the binning map, the y-index recomputed from the centroid is
the cell's binning key. -/
theorem pillarYIdx_eq_key (P : PParams) (hy : 0 < P.yStep)
    (e : (ℤ × ℤ) × List PillarPoint) (he : goodCell4 P e) :
    pillarYIdx P e.2 = e.1.2 := by
  unfold pillarYIdx yMeanOf
  have hlen : ((e.2.length : ℕ) : ℚ) = (((e.2.map fun p => p.y).length : ℕ) : ℚ) := by simp
  rw [hlen]
  apply floor_mean_eq P.yStep P.yMin hy e.1.2 _ (by simpa using he.1)
  intro v hv
  obtain ⟨p, hp, rfl⟩ := List.mem_map.mp hv
  have := (he.2 p hp).2
  exact congrArg Prod.snd this

/-- The update `offsetPoints` preserves each point's `x`. -/
theorem offsetPoints_getD_x (ps : List PillarPoint) (j : ℕ) (hj : j < ps.length) :
    ((offsetPoints ps).getD j pZero).x = (ps.getD j pZero).x := by
  unfold offsetPoints
  rw [getD_map _ _ _ _ pZero hj]

/-- The update `offsetPoints` preserves each point's `y`. -/
theorem offsetPoints_getD_y (ps : List PillarPoint) (j : ℕ) (hj : j < ps.length) :
    ((offsetPoints ps).getD j pZero).y = (ps.getD j pZero).y := by
  unfold offsetPoints
  rw [getD_map _ _ _ _ pZero hj]

/-- Claim C4 (amended, confirmed): in the 4-column variant, with
`minDistance > 0`, no point with `x² + y² < minDistance²` is ever binned, and
consequently every slot of the output feature tensor whose (x, y) channels lie
inside the exclusion disk is an all-zero (unwritten) slot — a rejected point
never appears in the output.  (The 7-column variant performs no such
filtering; see the counterexample.) -/
theorem c4_amended_min_distance (P : PParams) (rows : List (List ℚ))
    (hmd : 0 < P.minDistance) :
    (∀ e ∈ binPoints4 P rows, ∀ p ∈ e.2, ¬ p.x ^ 2 + p.y ^ 2 < P.minDistance ^ 2) ∧
    (∀ q j : ℕ,
      ((createPillars4 P rows).1 q j 0) ^ 2 + ((createPillars4 P rows).1 q j 1) ^ 2
          < P.minDistance ^ 2 →
      ∀ c : ℕ, (createPillars4 P rows).1 q j c = 0) := by
  have part1 : ∀ e ∈ binPoints4 P rows, ∀ p ∈ e.2,
      ¬ p.x ^ 2 + p.y ^ 2 < P.minDistance ^ 2 := by
    intro e he p hp hlt
    exact ((binPoints4_good P rows e he).2 p hp).1
      (Or.inr (Or.inr (Or.inr (Or.inr (Or.inr (Or.inr ⟨hmd, hlt⟩))))))
  refine ⟨part1, ?_⟩
  intro q j hlt c
  by_cases hin : q < P.maxPillars ∧ q < (binPoints4 P rows).length ∧
      j < P.maxPointsPerPillar ∧ j < (((binPoints4 P rows).getD q emptyCell4).2).length
  · exfalso
    obtain ⟨h1, h2, h3, h4⟩ := hin
    have hc0 : q < P.maxPillars ∧ q < (binPoints4 P rows).length ∧
        j < P.maxPointsPerPillar ∧
        j < (((binPoints4 P rows).getD q emptyCell4).2).length ∧ (0 : ℕ) ≤ 8 :=
      ⟨h1, h2, h3, h4, by omega⟩
    have hc1 : q < P.maxPillars ∧ q < (binPoints4 P rows).length ∧
        j < P.maxPointsPerPillar ∧
        j < (((binPoints4 P rows).getD q emptyCell4).2).length ∧ (1 : ℕ) ≤ 8 :=
      ⟨h1, h2, h3, h4, by omega⟩
    rw [createPillars4_tensor_read, createPillars4_tensor_read, if_pos hc0, if_pos hc1] at hlt
    simp only [featureOf4] at hlt
    rw [offsetPoints_getD_x _ _ h4, offsetPoints_getD_y _ _ h4] at hlt
    exact part1 _ (getD_mem _ q emptyCell4 h2) _ (getD_mem _ j pZero h4) hlt
  · rw [createPillars4_tensor_read,
      if_neg (fun hcond => hin ⟨hcond.1, hcond.2.1, hcond.2.2.1, hcond.2.2.2.1⟩)]

/-- Claim C7 (confirmed): for every emitted point row of the 4-column variant,
channels 7 and 8 are the point's offsets from the cell corner world
coordinates derived from the pillar's integer binning key — the index
recomputed from the centroid (source lines 161–164) equals the key under which
the points were binned, because the mean of points in a half-open cell stays
in the cell (exact arithmetic). -/
theorem c7_offsets_from_binned_cell_key (P : PParams) (rows : List (List ℚ))
    (hx : 0 < P.xStep) (hy : 0 < P.yStep) (q j : ℕ)
    (h1 : q < P.maxPillars) (h2 : q < (binPoints4 P rows).length)
    (h3 : j < P.maxPointsPerPillar)
    (h4 : j < (((binPoints4 P rows).getD q emptyCell4).2).length) :
    (createPillars4 P rows).1 q j 7 =
      ((((binPoints4 P rows).getD q emptyCell4).2).getD j pZero).x -
        ((((binPoints4 P rows).getD q emptyCell4).1.1 : ℚ) * P.xStep + P.xMin) ∧
    (createPillars4 P rows).1 q j 8 =
      ((((binPoints4 P rows).getD q emptyCell4).2).getD j pZero).y -
        ((((binPoints4 P rows).getD q emptyCell4).1.2 : ℚ) * P.yStep + P.yMin) := by
  have hcell := binPoints4_good P rows _ (getD_mem _ q emptyCell4 h2)
  have hxk := pillarXIdx_eq_key P hx _ hcell
  have hyk := pillarYIdx_eq_key P hy _ hcell
  constructor
  · have hc : q < P.maxPillars ∧ q < (binPoints4 P rows).length ∧
        j < P.maxPointsPerPillar ∧
        j < (((binPoints4 P rows).getD q emptyCell4).2).length ∧ (7 : ℕ) ≤ 8 :=
      ⟨h1, h2, h3, h4, by omega⟩
    rw [createPillars4_tensor_read, if_pos hc]
    simp only [featureOf4]
    rw [offsetPoints_getD_x _ _ h4, hxk]
  · have hc : q < P.maxPillars ∧ q < (binPoints4 P rows).length ∧
        j < P.maxPointsPerPillar ∧
        j < (((binPoints4 P rows).getD q emptyCell4).2).length ∧ (8 : ℕ) ≤ 8 :=
      ⟨h1, h2, h3, h4, by omega⟩
    rw [createPillars4_tensor_read, if_pos hc]
    simp only [featureOf4]
    rw [offsetPoints_getD_y _ _ h4, hyk]

/-- Claim C5 (confirmed): for every input to `createPillars` (both variants),
the output tensors contain at most `maxPillars` written pillar slots (every
slot at index `≥ maxPillars`, and every slot beyond the number of occupied
cells, is zero in the feature tensor and in the index tensor), at most
`maxPointsPerPillar` written rows per pillar (every row at index
`≥ maxPointsPerPillar`, and every row beyond the cell's point count, is zero),
and each written row is the corresponding entry of
`take maxPointsPerPillar` of the cell's points in within-cell insertion order —
the first `maxPointsPerPillar` points are kept and the rest dropped. -/
theorem c5_capacity_and_truncation (P : PParams) (rows4 rows7 : List (List ℚ)) :
    ((∀ q, P.maxPillars ≤ q → ∀ j c, (createPillars4 P rows4).1 q j c = 0) ∧
     (∀ q, (binPoints4 P rows4).length ≤ q → ∀ j c, (createPillars4 P rows4).1 q j c = 0) ∧
     (∀ q, P.maxPillars ≤ q → ∀ k, (createPillars4 P rows4).2 q k = 0) ∧
     (∀ q, (binPoints4 P rows4).length ≤ q → ∀ k, (createPillars4 P rows4).2 q k = 0) ∧
     (∀ q j, P.maxPointsPerPillar ≤ j → ∀ c, (createPillars4 P rows4).1 q j c = 0) ∧
     (∀ q j, (((binPoints4 P rows4).getD q emptyCell4).2).length ≤ j →
        ∀ c, (createPillars4 P rows4).1 q j c = 0) ∧
     (∀ q j c, q < P.maxPillars → q < (binPoints4 P rows4).length →
        j < P.maxPointsPerPillar →
        j < (((binPoints4 P rows4).getD q emptyCell4).2).length → c ≤ 8 →
        (createPillars4 P rows4).1 q j c =
          featureOf4 P (pillarXIdx P ((binPoints4 P rows4).getD q emptyCell4).2)
            (pillarYIdx P ((binPoints4 P rows4).getD q emptyCell4).2)
            (((offsetPoints ((binPoints4 P rows4).getD q emptyCell4).2).take
                P.maxPointsPerPillar).getD j pZero) c)) ∧
    ((∀ q, P.maxPillars ≤ q → ∀ j c, (createPillars7 P rows7).1 q j c = 0) ∧
     (∀ q, (binPoints7 P rows7).length ≤ q → ∀ j c, (createPillars7 P rows7).1 q j c = 0) ∧
     (∀ q, P.maxPillars ≤ q → ∀ k, (createPillars7 P rows7).2 q k = 0) ∧
     (∀ q, (binPoints7 P rows7).length ≤ q → ∀ k, (createPillars7 P rows7).2 q k = 0) ∧
     (∀ q j, P.maxPointsPerPillar ≤ j → ∀ c, (createPillars7 P rows7).1 q j c = 0) ∧
     (∀ q j, (((binPoints7 P rows7).getD q emptyCell7).2).length ≤ j →
        ∀ c, (createPillars7 P rows7).1 q j c = 0) ∧
     (∀ q j c, q < P.maxPillars → q < (binPoints7 P rows7).length →
        j < P.maxPointsPerPillar →
        j < (((binPoints7 P rows7).getD q emptyCell7).2).length → c ≤ 11 →
        (createPillars7 P rows7).1 q j c =
          featureOf7 P (pillarXIdx7 P ((binPoints7 P rows7).getD q emptyCell7).2)
            (pillarYIdx7 P ((binPoints7 P rows7).getD q emptyCell7).2)
            (((offsetPoints7 ((binPoints7 P rows7).getD q emptyCell7).2).take
                P.maxPointsPerPillar).getD j pZero7) c)) := by
  constructor
  · refine ⟨?_, ?_, ?_, ?_, ?_, ?_, ?_⟩
    · intro q hq j c
      rw [createPillars4_tensor_read, if_neg (by rintro ⟨h, -⟩; omega)]
    · intro q hq j c
      rw [createPillars4_tensor_read, if_neg (by rintro ⟨-, h, -⟩; omega)]
    · intro q hq k
      rw [createPillars4_ind_read, if_neg (by rintro ⟨h, -⟩; omega)]
    · intro q hq k
      rw [createPillars4_ind_read, if_neg (by rintro ⟨-, h, -⟩; omega)]
    · intro q j hj c
      rw [createPillars4_tensor_read, if_neg (by rintro ⟨-, -, h, -⟩; omega)]
    · intro q j hj c
      rw [createPillars4_tensor_read, if_neg (by rintro ⟨-, -, -, h, -⟩; omega)]
    · intro q j c h1 h2 h3 h4 hc
      rw [createPillars4_tensor_read, if_pos ⟨h1, h2, h3, h4, hc⟩,
        getD_take_of_lt _ _ _ _ h3]
  · refine ⟨?_, ?_, ?_, ?_, ?_, ?_, ?_⟩
    · intro q hq j c
      rw [createPillars7_tensor_read, if_neg (by rintro ⟨h, -⟩; omega)]
    · intro q hq j c
      rw [createPillars7_tensor_read, if_neg (by rintro ⟨-, h, -⟩; omega)]
    · intro q hq k
      rw [createPillars7_ind_read, if_neg (by rintro ⟨h, -⟩; omega)]
    · intro q hq k
      rw [createPillars7_ind_read, if_neg (by rintro ⟨-, h, -⟩; omega)]
    · intro q j hj c
      rw [createPillars7_tensor_read, if_neg (by rintro ⟨-, -, h, -⟩; omega)]
    · intro q j hj c
      rw [createPillars7_tensor_read, if_neg (by rintro ⟨-, -, -, h, -⟩; omega)]
    · intro q j c h1 h2 h3 h4 hc
      rw [createPillars7_tensor_read, if_pos ⟨h1, h2, h3, h4, hc⟩,
        getD_take_of_lt _ _ _ _ h3]

section DecideEval2

attribute [local semireducible] Rat.add Rat.mul Rat.inv Rat.sub

/-- Witness for claim C5 at a concrete input: four points in one cell with
`maxPointsPerPillar = 3` — the fourth row is zero, rows at or beyond the
pillar capacity are zero in both tensors, and the kept third row is the third
point of the cell's insertion-order `take`. -/
theorem c5_witness :
    ((createPillars4 testP [[6, 6, 0, 1], [61/10, 6, 0, 1], [62/10, 6, 0, 1],
        [63/10, 6, 0, 1]]).1 4 0 0 = 0 ∧
     (createPillars4 testP [[6, 6, 0, 1], [61/10, 6, 0, 1], [62/10, 6, 0, 1],
        [63/10, 6, 0, 1]]).1 1 0 0 = 0 ∧
     (createPillars4 testP [[6, 6, 0, 1], [61/10, 6, 0, 1], [62/10, 6, 0, 1],
        [63/10, 6, 0, 1]]).2 4 1 = 0 ∧
     (createPillars4 testP [[6, 6, 0, 1], [61/10, 6, 0, 1], [62/10, 6, 0, 1],
        [63/10, 6, 0, 1]]).1 0 3 0 = 0 ∧
     (createPillars4 testP [[6, 6, 0, 1], [61/10, 6, 0, 1], [62/10, 6, 0, 1],
        [63/10, 6, 0, 1]]).1 0 2 0 = 62/10) ∧
    (createPillars7 testP [[1, 1, 0, 1, 1/2, 1/2, 1/2]]).1 3 0 9 = 0 := by
  have h := c5_capacity_and_truncation testP
    [[6, 6, 0, 1], [61/10, 6, 0, 1], [62/10, 6, 0, 1], [63/10, 6, 0, 1]]
    [[1, 1, 0, 1, 1/2, 1/2, 1/2]]
  refine ⟨⟨?_, ?_, ?_, ?_, ?_⟩, ?_⟩
  · exact h.1.1 4 (by decide) 0 0
  · exact h.1.2.1 1 (by decide) 0 0
  · exact h.1.2.2.1 4 (by decide) 1
  · exact h.1.2.2.2.2.1 0 3 (by decide) 0
  · rw [h.1.2.2.2.2.2.2 0 2 0 (by decide) (by decide) (by decide) (by decide) (by decide)]
    decide
  · exact h.2.2.1 3 (by decide) 0 9

end DecideEval2

section DecideEval3

attribute [local semireducible] Rat.add Rat.mul Rat.inv Rat.sub

/-- Witness for claim C4's amended theorem at a concrete input: the single
4-column point `(1, 1, 0, 1)` lies inside the exclusion disk, the tensor slot
`(0, 0)` stays inside the disk (it is zero), and the amended theorem applies. -/
theorem c4_amended_witness :
    (0 : ℚ) < testP.minDistance ∧
    (createPillars4 testP [[1, 1, 0, 1]]).1 0 0 0 ^ 2 +
        (createPillars4 testP [[1, 1, 0, 1]]).1 0 0 1 ^ 2 < testP.minDistance ^ 2 ∧
    (createPillars4 testP [[1, 1, 0, 1]]).1 0 0 0 = 0 :=
  ⟨by decide, by decide,
    (c4_amended_min_distance testP [[1, 1, 0, 1]] (by decide)).2 0 0 (by decide) 0⟩

/-- Witness for claim C7 at a concrete input: a single point `(6, 6, 0, 1)`
lands in cell `(6, 6)`; channels 7 and 8 of its row equal its offsets from the
cell corner computed from the binning key. -/
theorem c7_witness :
    (0 : ℚ) < testP.xStep ∧ (0 : ℚ) < testP.yStep ∧
    0 < testP.maxPillars ∧ 0 < (binPoints4 testP [[6, 6, 0, 1]]).length ∧
    0 < testP.maxPointsPerPillar ∧
    0 < (((binPoints4 testP [[6, 6, 0, 1]]).getD 0 emptyCell4).2).length ∧
    ((createPillars4 testP [[6, 6, 0, 1]]).1 0 0 7 =
      ((((binPoints4 testP [[6, 6, 0, 1]]).getD 0 emptyCell4).2).getD 0 pZero).x -
        ((((binPoints4 testP [[6, 6, 0, 1]]).getD 0 emptyCell4).1.1 : ℚ) * testP.xStep +
          testP.xMin) ∧
    (createPillars4 testP [[6, 6, 0, 1]]).1 0 0 8 =
      ((((binPoints4 testP [[6, 6, 0, 1]]).getD 0 emptyCell4).2).getD 0 pZero).y -
        ((((binPoints4 testP [[6, 6, 0, 1]]).getD 0 emptyCell4).1.2 : ℚ) * testP.yStep +
          testP.yMin)) :=
  ⟨by decide, by decide, by decide, by decide, by decide, by decide,
    c7_offsets_from_binned_cell_key testP [[6, 6, 0, 1]] (by decide) (by decide) 0 0
      (by decide) (by decide) (by decide) (by decide)⟩

end DecideEval3

/-! ## Target-tensor store/read lemmas -/

/-- Reading back the stored value. -/
theorem writeT_eq (t : Tensor) (o x y a c : ℤ) (v : ℚ) :
    writeT t o x y a c v o x y a c = v := by
  simp [writeT]

/-- A store does not affect a read at a different position. -/
theorem writeT_ne (t : Tensor) (o x y a c : ℤ) (v : ℚ) (o' x' y' a' c' : ℤ)
    (h : ¬ (o' = o ∧ x' = x ∧ y' = y ∧ a' = a ∧ c' = c)) :
    writeT t o x y a c v o' x' y' a' c' = t o' x' y' a' c' := by
  unfold writeT
  exact if_neg h

/-- A store to a different channel does not affect the read. -/
theorem writeT_ne_channel (t : Tensor) (o x y a c : ℤ) (v : ℚ) (o' x' y' a' c' : ℤ)
    (h : c' ≠ c) : writeT t o x y a c v o' x' y' a' c' = t o' x' y' a' c' := by
  apply writeT_ne
  rintro ⟨-, -, -, -, hc⟩
  exact h hc

/-- The integer `clip` returns its argument when the argument is already in range. -/
theorem clipI_id (n lo hi : ℤ) (h1 : lo ≤ n) (h2 : n ≤ hi) : clipI n lo hi = n := by
  unfold clipI
  rw [Int.max_def, Int.min_def]
  split_ifs
  all_goals omega

/-- Clipping to `[0, hi]` never exceeds a non-negative argument. -/
theorem clipI_le_self (n hi : ℤ) (h : 0 ≤ n) : clipI n 0 hi ≤ n := by
  unfold clipI
  rw [Int.max_def, Int.min_def]
  split_ifs
  all_goals omega

/-- Invariants are preserved by `List.foldl` when each step taken from the
list preserves them. -/
theorem foldl_invariant_mem {σ α : Type} (f : σ → α → σ) (Q : σ → Prop) (l : List α)
    (h : ∀ s a, a ∈ l → Q s → Q (f s a)) : ∀ s, Q s → Q (l.foldl f s) := by
  induction l with
  | nil => intro s hs; simpa using hs
  | cons a l ih =>
      intro s hs
      rw [List.foldl_cons]
      exact ih (fun s' a' ha' hs' => h s' a' (List.mem_cons_of_mem _ ha') hs') _
        (h s a (by simp) hs)

/-- Every enumerated anchor is an element of the anchor list. -/
theorem enumI_snd_mem (xs : List BBox) : ∀ ai ∈ enumI xs, ai.2 ∈ xs := by
  intro ai hai
  unfold enumI at hai
  rw [List.mem_map] at hai
  obtain ⟨i, hi, rfl⟩ := hai
  exact getD_mem _ _ _ (by simpa using hi)

/-! ## Claim C2: the heading-flip conjunction is unsatisfiable -/

/-- The channel-8 condition `|d| < π/2 ∧ |d| > 1.5π` is unsatisfiable whenever
`π ≥ 0`. -/
theorem flip_condition_unsat (piv d : ℚ) (hpi : 0 ≤ piv) :
    ¬ (|d| < piv / 2 ∧ 3 / 2 * piv < |d|) := by
  rintro ⟨h1, h2⟩
  linarith

/-- The ten stores of a positive assignment keep channel 8 zero. -/
theorem posWrites_ch8_zero (ops : Ops) (lb : BBox) (o xId yId aId : ℤ) (a : BBox)
    (diag : ℚ) (t : Tensor) (hpi : 0 ≤ ops.pi)
    (ht : ∀ o' x' y' a', t o' x' y' a' 8 = 0) :
    ∀ o' x' y' a', posWrites ops lb o xId yId aId a diag t o' x' y' a' 8 = 0 := by
  intro o' x' y' a'
  simp only [posWrites]
  rw [writeT_ne_channel _ _ _ _ _ _ _ _ _ _ _ _ (by decide)]
  by_cases hpos : o' = o ∧ x' = xId ∧ y' = yId ∧ a' = aId
  · obtain ⟨h1, h2, h3, h4⟩ := hpos
    subst h1; subst h2; subst h3; subst h4
    rw [writeT_eq]
    exact if_neg (flip_condition_unsat ops.pi _ hpi)
  · rw [writeT_ne _ _ _ _ _ _ _ _ _ _ _ _
      (by rintro ⟨e1, e2, e3, e4, -⟩; exact hpos ⟨e1, e2, e3, e4⟩)]
    rw [writeT_ne_channel _ _ _ _ _ _ _ _ _ _ _ _ (by decide),
      writeT_ne_channel _ _ _ _ _ _ _ _ _ _ _ _ (by decide),
      writeT_ne_channel _ _ _ _ _ _ _ _ _ _ _ _ (by decide),
      writeT_ne_channel _ _ _ _ _ _ _ _ _ _ _ _ (by decide),
      writeT_ne_channel _ _ _ _ _ _ _ _ _ _ _ _ (by decide),
      writeT_ne_channel _ _ _ _ _ _ _ _ _ _ _ _ (by decide),
      writeT_ne_channel _ _ _ _ _ _ _ _ _ _ _ _ (by decide),
      writeT_ne_channel _ _ _ _ _ _ _ _ _ _ _ _ (by decide)]
    exact ht o' x' y' a'

/-- One search step keeps channel 8 zero. -/
theorem stepAnchor_ch8_zero (ops : Ops) (inp : TargetInput) (lb : BBox) (diags : List ℚ)
    (o xId yId : ℤ) (x y : ℚ) (st : SState) (ai : ℤ × BBox) (hpi : 0 ≤ ops.pi)
    (ht : ∀ o' x' y' a', st.t o' x' y' a' 8 = 0) :
    ∀ o' x' y' a',
      (stepAnchor ops inp lb diags o xId yId x y st ai).t o' x' y' a' 8 = 0 := by
  intro o' x' y' a'
  simp only [stepAnchor]
  by_cases h1 : inp.positiveThreshold < iou ops (placeAnchor ops inp lb ai.2 x y) lb
  · rw [if_pos h1]
    exact posWrites_ch8_zero ops lb o xId yId ai.1 _ _ st.t hpi ht o' x' y' a'
  · rw [if_neg h1]
    by_cases h2 : iou ops (placeAnchor ops inp lb ai.2 x y) lb < inp.negativeThreshold
    · rw [if_pos h2, writeT_ne_channel _ _ _ _ _ _ _ _ _ _ _ _ (by decide)]
      exact ht o' x' y' a'
    · rw [if_neg h2, writeT_ne_channel _ _ _ _ _ _ _ _ _ _ _ _ (by decide)]
      exact ht o' x' y' a'

/-- The whole search keeps channel 8 zero. -/
theorem searchStateOf_ch8_zero (ops : Ops) (inp : TargetInput) (anchors : List BBox)
    (diags : List ℚ) (lb : BBox) (o : ℤ) (t : Tensor) (hpi : 0 ≤ ops.pi)
    (ht : ∀ o' x' y' a', t o' x' y' a' 8 = 0) :
    ∀ o' x' y' a',
      (searchStateOf ops inp anchors diags lb o t).t o' x' y' a' 8 = 0 := by
  unfold searchStateOf
  refine foldl_invariant (searchCell ops inp lb diags anchors o)
    (fun st => ∀ o' x' y' a', st.t o' x' y' a' 8 = 0) ?_ _ _ ht
  intro st cell hst
  unfold searchCell
  refine foldl_invariant _ (fun (st : SState) => ∀ o' x' y' a', st.t o' x' y' a' 8 = 0)
    ?_ _ _ hst
  intro st' ai hst'
  exact stepAnchor_ch8_zero ops inp lb diags o cell.1 cell.2 _ _ st' ai hpi hst'

/-- One fallback offset keeps channel 8 zero. -/
theorem fallbackStep_ch8_zero (ops : Ops) (inp : TargetInput) (lb : BBox)
    (o xId0 yId0 : ℤ) (best : BBox) (bid : ℤ) (t : Tensor) (d : ℤ × ℤ)
    (hpi : 0 ≤ ops.pi) (ht : ∀ o' x' y' a', t o' x' y' a' 8 = 0) :
    ∀ o' x' y' a',
      fallbackStep ops inp lb o xId0 yId0 best bid t d o' x' y' a' 8 = 0 := by
  intro o' x' y' a'
  simp only [fallbackStep]
  by_cases hc : d.1 = 0 ∧ d.2 = 0
  · rw [if_pos hc]
    rw [writeT_ne_channel _ _ _ _ _ _ _ _ _ _ _ _ (by decide)]
    by_cases hpos : o' = o ∧ x' = clipI (xId0 + d.1) 0 (xSizeOf inp - 1) ∧
        y' = clipI (yId0 + d.2) 0 (ySizeOf inp - 1) ∧ a' = bid
    · obtain ⟨h1, h2, h3, h4⟩ := hpos
      subst h1; subst h2; subst h3; subst h4
      rw [writeT_eq]
      exact if_neg (flip_condition_unsat ops.pi _ hpi)
    · rw [writeT_ne _ _ _ _ _ _ _ _ _ _ _ _
        (by rintro ⟨e1, e2, e3, e4, -⟩; exact hpos ⟨e1, e2, e3, e4⟩)]
      rw [writeT_ne_channel _ _ _ _ _ _ _ _ _ _ _ _ (by decide),
        writeT_ne_channel _ _ _ _ _ _ _ _ _ _ _ _ (by decide),
        writeT_ne_channel _ _ _ _ _ _ _ _ _ _ _ _ (by decide),
        writeT_ne_channel _ _ _ _ _ _ _ _ _ _ _ _ (by decide),
        writeT_ne_channel _ _ _ _ _ _ _ _ _ _ _ _ (by decide),
        writeT_ne_channel _ _ _ _ _ _ _ _ _ _ _ _ (by decide),
        writeT_ne_channel _ _ _ _ _ _ _ _ _ _ _ _ (by decide),
        writeT_ne_channel _ _ _ _ _ _ _ _ _ _ _ _ (by decide)]
      exact ht o' x' y' a'
  · rw [if_neg hc]
    by_cases hin : 0 ≤ xId0 + d.1 ∧ xId0 + d.1 < xSizeOf inp ∧
        0 ≤ yId0 + d.2 ∧ yId0 + d.2 < ySizeOf inp
    · rw [if_pos hin, writeT_ne_channel _ _ _ _ _ _ _ _ _ _ _ _ (by decide)]
      exact ht o' x' y' a'
    · rw [if_neg hin]
      exact ht o' x' y' a'

/-- Processing one object keeps channel 8 zero. -/
theorem processObject_ch8_zero (ops : Ops) (inp : TargetInput) (anchors : List BBox)
    (diags : List ℚ) (lb : BBox) (o : ℤ) (t : Tensor) (hpi : 0 ≤ ops.pi)
    (ht : ∀ o' x' y' a', t o' x' y' a' 8 = 0) :
    ∀ o' x' y' a',
      processObject ops inp anchors diags lb o t o' x' y' a' 8 = 0 := by
  intro o' x' y' a'
  simp only [processObject]
  have hst := searchStateOf_ch8_zero ops inp anchors diags lb o t hpi ht
  by_cases hm : (searchStateOf ops inp anchors diags lb o t).maxIou < inp.positiveThreshold
  · rw [if_pos hm]
    unfold fallbackLoop
    refine foldl_invariant_mem _ (fun (t' : Tensor) => ∀ o' x' y' a', t' o' x' y' a' 8 = 0)
      _ ?_ _ hst o' x' y' a'
    intro t' d _ ht'
    exact fallbackStep_ch8_zero ops inp lb o _ _ _ _ t' d hpi ht'
  · rw [if_neg hm]
    exact hst o' x' y' a'

/-- The per-object loop keeps channel 8 zero. -/
theorem processAllObjects_ch8_zero (ops : Ops) (inp : TargetInput) (anchors : List BBox)
    (diags : List ℚ) (hpi : 0 ≤ ops.pi) :
    ∀ (labels : List BBox) (o : ℤ) (t : Tensor),
      (∀ o' x' y' a', t o' x' y' a' 8 = 0) →
      ∀ o' x' y' a',
        processAllObjects ops inp anchors diags labels o t o' x' y' a' 8 = 0 := by
  intro labels
  induction labels with
  | nil => intro o t ht o' x' y' a'; exact ht o' x' y' a'
  | cons lb rest ih =>
      intro o t ht o' x' y' a'
      exact ih (o + 1) _ (processObject_ch8_zero ops inp anchors diags lb o t hpi ht)
        o' x' y' a'

/-- Claim C2 (confirmed): in every tensor returned by `createPillarsTarget`,
channel 8 (the heading-flip flag) is 0 at every position, for every input and
any non-negative `π`: the flag is written as 1 exactly when
`|delta_yaw_o| < π/2` and `|delta_yaw_o| > 1.5π` hold simultaneously, and that
conjunction is unsatisfiable, so both the threshold path and the fallback path
always store 0 there. -/
theorem c2_channel8_always_zero (ops : Ops) (inp : TargetInput) (hpi : 0 ≤ ops.pi)
    (t : Tensor) (hok : createPillarsTarget ops inp = TargetResult.ok t)
    (o x y a : ℤ) : t o x y a 8 = 0 := by
  unfold createPillarsTarget at hok
  by_cases h1 : inp.anchorDimensions.length ≤ 0
  · rw [if_pos h1] at hok; cases hok
  · rw [if_neg h1] at hok
    by_cases h2 : inp.objectDimensions.length ≤ 0
    · rw [if_pos h2] at hok; cases hok
    · rw [if_neg h2] at hok
      have ht := TargetResult.ok.inj hok
      subst ht
      exact processAllObjects_ch8_zero ops inp (mkAnchors inp) (mkDiagonals ops inp) hpi
        (mkLabels inp) 0 zeroT (fun _ _ _ _ => rfl) o x y a

/-! ## Claim C8: writes stay on the owning object's slice -/

/-- A store at leading index `o` does not affect reads at leading index
`j ≠ o`. -/
theorem writeT_ne_obj (t : Tensor) (o x y a c : ℤ) (v : ℚ) (j x' y' a' c' : ℤ)
    (h : j ≠ o) : writeT t o x y a c v j x' y' a' c' = t j x' y' a' c' :=
  writeT_ne _ _ _ _ _ _ _ _ _ _ _ _ (by rintro ⟨e, -⟩; exact h e)

/-- The positive-assignment stores stay on the owning slice. -/
theorem posWrites_offslice (ops : Ops) (lb : BBox) (o xId yId aId : ℤ) (a : BBox)
    (diag : ℚ) (t : Tensor) (j x' y' a' c' : ℤ) (h : j ≠ o) :
    posWrites ops lb o xId yId aId a diag t j x' y' a' c' = t j x' y' a' c' := by
  simp only [posWrites]
  rw [writeT_ne_obj _ _ _ _ _ _ _ _ _ _ _ _ h, writeT_ne_obj _ _ _ _ _ _ _ _ _ _ _ _ h,
    writeT_ne_obj _ _ _ _ _ _ _ _ _ _ _ _ h, writeT_ne_obj _ _ _ _ _ _ _ _ _ _ _ _ h,
    writeT_ne_obj _ _ _ _ _ _ _ _ _ _ _ _ h, writeT_ne_obj _ _ _ _ _ _ _ _ _ _ _ _ h,
    writeT_ne_obj _ _ _ _ _ _ _ _ _ _ _ _ h, writeT_ne_obj _ _ _ _ _ _ _ _ _ _ _ _ h,
    writeT_ne_obj _ _ _ _ _ _ _ _ _ _ _ _ h, writeT_ne_obj _ _ _ _ _ _ _ _ _ _ _ _ h]

/-- The whole search for one object stays on the owning slice. -/
theorem searchStateOf_offslice (ops : Ops) (inp : TargetInput) (anchors : List BBox)
    (diags : List ℚ) (lb : BBox) (o : ℤ) (t : Tensor) (j : ℤ) (h : j ≠ o) :
    ∀ x' y' a' c',
      (searchStateOf ops inp anchors diags lb o t).t j x' y' a' c' = t j x' y' a' c' := by
  unfold searchStateOf
  refine foldl_invariant _
    (fun (st : SState) => ∀ x' y' a' c', st.t j x' y' a' c' = t j x' y' a' c') ?_ _ _
    (fun _ _ _ _ => rfl)
  intro st cell hst
  unfold searchCell
  refine foldl_invariant _
    (fun (st : SState) => ∀ x' y' a' c', st.t j x' y' a' c' = t j x' y' a' c') ?_ _ _ hst
  intro st' ai hst' x' y' a' c'
  simp only [stepAnchor]
  by_cases h1 : inp.positiveThreshold <
      iou ops (placeAnchor ops inp lb ai.2
        ((cell.1 : ℚ) * inp.xStep * dfQ inp + inp.xMin)
        ((cell.2 : ℚ) * inp.yStep * dfQ inp + inp.yMin)) lb
  · rw [if_pos h1, posWrites_offslice _ _ _ _ _ _ _ _ _ _ _ _ _ _ h]
    exact hst' x' y' a' c'
  · rw [if_neg h1]
    by_cases h2 : iou ops (placeAnchor ops inp lb ai.2
        ((cell.1 : ℚ) * inp.xStep * dfQ inp + inp.xMin)
        ((cell.2 : ℚ) * inp.yStep * dfQ inp + inp.yMin)) lb < inp.negativeThreshold
    · rw [if_pos h2, writeT_ne_obj _ _ _ _ _ _ _ _ _ _ _ _ h]
      exact hst' x' y' a' c'
    · rw [if_neg h2, writeT_ne_obj _ _ _ _ _ _ _ _ _ _ _ _ h]
      exact hst' x' y' a' c'

/-- The fallback loop for one object stays on the owning slice. -/
theorem fallbackLoop_offslice (ops : Ops) (inp : TargetInput) (lb : BBox) (o : ℤ)
    (best : BBox) (bid : ℤ) (t : Tensor) (j : ℤ) (h : j ≠ o) :
    ∀ x' y' a' c',
      fallbackLoop ops inp lb o best bid t j x' y' a' c' = t j x' y' a' c' := by
  unfold fallbackLoop
  refine foldl_invariant _
    (fun (t' : Tensor) => ∀ x' y' a' c', t' j x' y' a' c' = t j x' y' a' c') ?_ _ _
    (fun _ _ _ _ => rfl)
  intro t' d ht' x' y' a' c'
  simp only [fallbackStep]
  by_cases hc : d.1 = 0 ∧ d.2 = 0
  · rw [if_pos hc]
    rw [writeT_ne_obj _ _ _ _ _ _ _ _ _ _ _ _ h, writeT_ne_obj _ _ _ _ _ _ _ _ _ _ _ _ h,
      writeT_ne_obj _ _ _ _ _ _ _ _ _ _ _ _ h, writeT_ne_obj _ _ _ _ _ _ _ _ _ _ _ _ h,
      writeT_ne_obj _ _ _ _ _ _ _ _ _ _ _ _ h, writeT_ne_obj _ _ _ _ _ _ _ _ _ _ _ _ h,
      writeT_ne_obj _ _ _ _ _ _ _ _ _ _ _ _ h, writeT_ne_obj _ _ _ _ _ _ _ _ _ _ _ _ h,
      writeT_ne_obj _ _ _ _ _ _ _ _ _ _ _ _ h, writeT_ne_obj _ _ _ _ _ _ _ _ _ _ _ _ h]
    exact ht' x' y' a' c'
  · rw [if_neg hc]
    by_cases hin : 0 ≤ homeXId0 inp lb + d.1 ∧ homeXId0 inp lb + d.1 < xSizeOf inp ∧
        0 ≤ homeYId0 inp lb + d.2 ∧ homeYId0 inp lb + d.2 < ySizeOf inp
    · rw [if_pos hin, writeT_ne_obj _ _ _ _ _ _ _ _ _ _ _ _ h]
      exact ht' x' y' a' c'
    · rw [if_neg hin]
      exact ht' x' y' a' c'

/-- Processing one object stays on the owning slice. -/
theorem processObject_offslice (ops : Ops) (inp : TargetInput) (anchors : List BBox)
    (diags : List ℚ) (lb : BBox) (o : ℤ) (t : Tensor) (j : ℤ) (h : j ≠ o) :
    ∀ x' y' a' c',
      processObject ops inp anchors diags lb o t j x' y' a' c' = t j x' y' a' c' := by
  intro x' y' a' c'
  simp only [processObject]
  by_cases hm : (searchStateOf ops inp anchors diags lb o t).maxIou < inp.positiveThreshold
  · rw [if_pos hm, fallbackLoop_offslice ops inp lb o _ _ _ j h]
    exact searchStateOf_offslice ops inp anchors diags lb o t j h x' y' a' c'
  · rw [if_neg hm]
    exact searchStateOf_offslice ops inp anchors diags lb o t j h x' y' a' c'

/-- The per-object loop never writes outside the slices of the processed
objects: reads below the starting count or at or beyond the final count are
unchanged. -/
theorem processAllObjects_outside (ops : Ops) (inp : TargetInput) (anchors : List BBox)
    (diags : List ℚ) :
    ∀ (labels : List BBox) (o : ℤ) (t : Tensor) (j : ℤ),
      (j < o ∨ o + (labels.length : ℤ) ≤ j) →
      ∀ x y a c, processAllObjects ops inp anchors diags labels o t j x y a c
        = t j x y a c := by
  intro labels
  induction labels with
  | nil => intros; rfl
  | cons lb rest ih =>
      intro o t j hj x y a c
      have hne : j ≠ o := by
        rcases hj with h | h
        · omega
        · simp only [List.length_cons] at h; push_cast at h; omega
      simp only [processAllObjects]
      rw [ih (o + 1) _ j ?_ x y a c]
      · exact processObject_offslice ops inp anchors diags lb o t j hne x y a c
      · rcases hj with h | h
        · exact Or.inl (by omega)
        · right; simp only [List.length_cons] at h; push_cast at h ⊢; omega

/-- A list with a member mapped to `none` loses at least one entry under
`filterMap`. -/
theorem filterMap_length_lt {α β : Type} (f : α → Option β) :
    ∀ (l : List α) (a : α), a ∈ l → f a = none →
      (l.filterMap f).length < l.length := by
  intro l
  induction l with
  | nil => intro a ha; simp at ha
  | cons b l ih =>
      intro a ha hf
      rcases List.mem_cons.mp ha with rfl | ha
      · rw [List.filterMap_cons, hf]
        simp only [List.length_cons]
        exact Nat.lt_succ_of_le (List.length_filterMap_le f l)
      · rw [List.filterMap_cons]
        cases hb : f b with
        | none =>
            simp only [List.length_cons]
            exact Nat.lt_succ_of_lt (ih a ha hf)
        | some v =>
            simp only [List.length_cons]
            exact Nat.succ_lt_succ (ih a ha hf)

/-- Claim C8 (confirmed): a ground-truth box whose center lies outside
`[xMin, xMax) × [yMin, yMax)` is skipped during parsing, so the number of
processed objects is strictly below `nbObjects` (the running count is never
incremented for it), and every slice of the output tensor at or beyond the
final count — including the skipped object's would-be slice — is all zero. -/
theorem c8_out_of_bounds_label_excluded (ops : Ops) (inp : TargetInput) (i : ℕ)
    (hi : i < inp.objectDimensions.length)
    (hout : (inp.objectPositions.getD i (0, 0, 0)).1 < inp.xMin ∨
      (inp.objectPositions.getD i (0, 0, 0)).1 ≥ inp.xMax ∨
      (inp.objectPositions.getD i (0, 0, 0)).2.1 < inp.yMin ∨
      (inp.objectPositions.getD i (0, 0, 0)).2.1 ≥ inp.yMax) :
    (mkLabels inp).length < inp.objectDimensions.length ∧
    (∀ t : Tensor, createPillarsTarget ops inp = TargetResult.ok t →
      ∀ j : ℤ, ((mkLabels inp).length : ℤ) ≤ j →
      ∀ x y a c : ℤ, t j x y a c = 0) := by
  constructor
  · unfold mkLabels
    refine lt_of_lt_of_le
      (filterMap_length_lt _ (List.range inp.objectDimensions.length) i
        (List.mem_range.mpr hi) ?_) (le_of_eq (List.length_range _))
    exact if_pos hout
  · intro t hok j hj x y a c
    unfold createPillarsTarget at hok
    by_cases h1 : inp.anchorDimensions.length ≤ 0
    · rw [if_pos h1] at hok; cases hok
    · rw [if_neg h1] at hok
      by_cases h2 : inp.objectDimensions.length ≤ 0
      · rw [if_pos h2] at hok; cases hok
      · rw [if_neg h2] at hok
        have ht := TargetResult.ok.inj hok
        subst ht
        exact processAllObjects_outside ops inp (mkAnchors inp) (mkDiagonals ops inp)
          (mkLabels inp) 0 zeroT j (Or.inr (by omega)) x y a c

/-! ## The fallback loop around the home cell (claims C1 and C10) -/

/-- The 25 fallback offsets in loop order, split at `(0, 0)`. -/
theorem offsetList_split : offsetList = preOffsets ++ (0, 0) :: postOffsets := by decide

/-- Every post-`(0, 0)` offset is lexicographically after the center. -/
theorem postOffsets_after : ∀ d ∈ postOffsets, 0 < d.1 ∨ (d.1 = 0 ∧ 0 < d.2) := by decide

/-- The ignore stores at offsets after `(0, 0)` never land on the clipped home
cell: an in-range `dx > 0` neighbour has a strictly larger x-index than the
clipped home x (which is at most `xId0`), and an in-range `(0, dy > 0)`
neighbour has a strictly larger y-index than the clipped home y. -/
theorem fallback_post_preserve (ops : Ops) (inp : TargetInput) (lb : BBox)
    (o xId0 yId0 : ℤ) (best : BBox) (bid : ℤ) (hx0 : 0 ≤ xId0) (hy0 : 0 ≤ yId0) :
    ∀ (L : List (ℤ × ℤ)), (∀ d ∈ L, 0 < d.1 ∨ (d.1 = 0 ∧ 0 < d.2)) →
    ∀ (t : Tensor) (c : ℤ),
    (L.foldl (fallbackStep ops inp lb o xId0 yId0 best bid) t) o
        (clipI xId0 0 (xSizeOf inp - 1)) (clipI yId0 0 (ySizeOf inp - 1)) bid c =
      t o (clipI xId0 0 (xSizeOf inp - 1)) (clipI yId0 0 (ySizeOf inp - 1)) bid c := by
  intro L
  induction L with
  | nil => intro _ t c; rfl
  | cons d L ih =>
      intro hL t c
      rw [List.foldl_cons, ih (fun d' hd' => hL d' (List.mem_cons_of_mem _ hd'))]
      have hd := hL d (by simp)
      simp only [fallbackStep]
      have hne : ¬ (d.1 = 0 ∧ d.2 = 0) := by
        rintro ⟨e1, e2⟩
        rcases hd with h | ⟨h1, h2⟩ <;> omega
      rw [if_neg hne]
      by_cases hin : 0 ≤ xId0 + d.1 ∧ xId0 + d.1 < xSizeOf inp ∧
          0 ≤ yId0 + d.2 ∧ yId0 + d.2 < ySizeOf inp
      · rw [if_pos hin]
        obtain ⟨i1, i2, i3, i4⟩ := hin
        apply writeT_ne
        rcases hd with hdx | ⟨hdx0, hdy⟩
        · have hxid : clipI (xId0 + d.1) 0 (xSizeOf inp - 1) = xId0 + d.1 :=
            clipI_id _ _ _ i1 (by omega)
          have hlt : clipI xId0 0 (xSizeOf inp - 1) < xId0 + d.1 :=
            lt_of_le_of_lt (clipI_le_self xId0 _ hx0) (by omega)
          rintro ⟨-, e2, -⟩
          rw [hxid] at e2
          omega
        · have hyid : clipI (yId0 + d.2) 0 (ySizeOf inp - 1) = yId0 + d.2 :=
            clipI_id _ _ _ i3 (by omega)
          have hlt : clipI yId0 0 (ySizeOf inp - 1) < yId0 + d.2 :=
            lt_of_le_of_lt (clipI_le_self yId0 _ hy0) (by omega)
          rintro ⟨-, -, e3, -⟩
          rw [hyid] at e3
          omega
      · rw [if_neg hin]

/-- Reading channels 0, 1, 2 at the clipped home cell directly after the
center write of the fallback: label 1, and offsets computed against the
clipped home cell's world coordinates divided by the best anchor's diagonal. -/
theorem fallback_center_reads (ops : Ops) (inp : TargetInput) (lb : BBox)
    (o xId0 yId0 : ℤ) (best : BBox) (bid : ℤ) (t : Tensor) :
    (fallbackStep ops inp lb o xId0 yId0 best bid t (0, 0)) o
        (clipI xId0 0 (xSizeOf inp - 1)) (clipI yId0 0 (ySizeOf inp - 1)) bid 0 = 1 ∧
    (fallbackStep ops inp lb o xId0 yId0 best bid t (0, 0)) o
        (clipI xId0 0 (xSizeOf inp - 1)) (clipI yId0 0 (ySizeOf inp - 1)) bid 1 =
      (lb.x - ((clipI xId0 0 (xSizeOf inp - 1) : ℚ) * inp.xStep * dfQ inp + inp.xMin)) /
        ops.sqrt (best.width ^ 2 + best.length ^ 2) ∧
    (fallbackStep ops inp lb o xId0 yId0 best bid t (0, 0)) o
        (clipI xId0 0 (xSizeOf inp - 1)) (clipI yId0 0 (ySizeOf inp - 1)) bid 2 =
      (lb.y - ((clipI yId0 0 (ySizeOf inp - 1) : ℚ) * inp.yStep * dfQ inp + inp.yMin)) /
        ops.sqrt (best.width ^ 2 + best.length ^ 2) := by
  simp only [fallbackStep, add_zero, and_self, if_true, ite_true, reduceIte]
  refine ⟨?_, ?_, ?_⟩
  · rw [writeT_ne_channel _ _ _ _ _ _ _ _ _ _ _ _ (by decide),
      writeT_ne_channel _ _ _ _ _ _ _ _ _ _ _ _ (by decide),
      writeT_ne_channel _ _ _ _ _ _ _ _ _ _ _ _ (by decide),
      writeT_ne_channel _ _ _ _ _ _ _ _ _ _ _ _ (by decide),
      writeT_ne_channel _ _ _ _ _ _ _ _ _ _ _ _ (by decide),
      writeT_ne_channel _ _ _ _ _ _ _ _ _ _ _ _ (by decide),
      writeT_ne_channel _ _ _ _ _ _ _ _ _ _ _ _ (by decide),
      writeT_ne_channel _ _ _ _ _ _ _ _ _ _ _ _ (by decide),
      writeT_ne_channel _ _ _ _ _ _ _ _ _ _ _ _ (by decide)]
    exact writeT_eq _ _ _ _ _ _ _
  · rw [writeT_ne_channel _ _ _ _ _ _ _ _ _ _ _ _ (by decide),
      writeT_ne_channel _ _ _ _ _ _ _ _ _ _ _ _ (by decide),
      writeT_ne_channel _ _ _ _ _ _ _ _ _ _ _ _ (by decide),
      writeT_ne_channel _ _ _ _ _ _ _ _ _ _ _ _ (by decide),
      writeT_ne_channel _ _ _ _ _ _ _ _ _ _ _ _ (by decide),
      writeT_ne_channel _ _ _ _ _ _ _ _ _ _ _ _ (by decide),
      writeT_ne_channel _ _ _ _ _ _ _ _ _ _ _ _ (by decide),
      writeT_ne_channel _ _ _ _ _ _ _ _ _ _ _ _ (by decide)]
    exact writeT_eq _ _ _ _ _ _ _
  · rw [writeT_ne_channel _ _ _ _ _ _ _ _ _ _ _ _ (by decide),
      writeT_ne_channel _ _ _ _ _ _ _ _ _ _ _ _ (by decide),
      writeT_ne_channel _ _ _ _ _ _ _ _ _ _ _ _ (by decide),
      writeT_ne_channel _ _ _ _ _ _ _ _ _ _ _ _ (by decide),
      writeT_ne_channel _ _ _ _ _ _ _ _ _ _ _ _ (by decide),
      writeT_ne_channel _ _ _ _ _ _ _ _ _ _ _ _ (by decide),
      writeT_ne_channel _ _ _ _ _ _ _ _ _ _ _ _ (by decide)]
    exact writeT_eq _ _ _ _ _ _ _

/-- The home cell indices are non-negative for an in-bounds label and positive
cell size. -/
theorem homeXId0_nonneg (inp : TargetInput) (lb : BBox)
    (hsx : 0 < inp.xStep * dfQ inp) (hlx : inp.xMin ≤ lb.x) : 0 ≤ homeXId0 inp lb :=
  Int.floor_nonneg.mpr (div_nonneg (by linarith) (le_of_lt hsx))

theorem homeYId0_nonneg (inp : TargetInput) (lb : BBox)
    (hsy : 0 < inp.yStep * dfQ inp) (hly : inp.yMin ≤ lb.y) : 0 ≤ homeYId0 inp lb :=
  Int.floor_nonneg.mpr (div_nonneg (by linarith) (le_of_lt hsy))

/-- Reading channels 0, 1, 2 of the final fallback tensor at the clipped home
cell and best anchor: the center write survives the remaining offsets. -/
theorem fallbackLoop_home_reads (ops : Ops) (inp : TargetInput) (lb : BBox)
    (o : ℤ) (best : BBox) (bid : ℤ) (t : Tensor)
    (hx0 : 0 ≤ homeXId0 inp lb) (hy0 : 0 ≤ homeYId0 inp lb) :
    fallbackLoop ops inp lb o best bid t o (homeXId inp lb) (homeYId inp lb) bid 0 = 1 ∧
    fallbackLoop ops inp lb o best bid t o (homeXId inp lb) (homeYId inp lb) bid 1 =
      (lb.x - ((homeXId inp lb : ℚ) * inp.xStep * dfQ inp + inp.xMin)) /
        ops.sqrt (best.width ^ 2 + best.length ^ 2) ∧
    fallbackLoop ops inp lb o best bid t o (homeXId inp lb) (homeYId inp lb) bid 2 =
      (lb.y - ((homeYId inp lb : ℚ) * inp.yStep * dfQ inp + inp.yMin)) /
        ops.sqrt (best.width ^ 2 + best.length ^ 2) := by
  unfold fallbackLoop
  rw [offsetList_split, List.foldl_append, List.foldl_cons]
  have hpost := fallback_post_preserve ops inp lb o (homeXId0 inp lb) (homeYId0 inp lb)
    best bid hx0 hy0 postOffsets postOffsets_after
  have hcenter := fallback_center_reads ops inp lb o (homeXId0 inp lb) (homeYId0 inp lb)
    best bid (preOffsets.foldl
      (fallbackStep ops inp lb o (homeXId0 inp lb) (homeYId0 inp lb) best bid) t)
  unfold homeXId homeYId
  exact ⟨by rw [hpost]; exact hcenter.1, by rw [hpost]; exact hcenter.2.1,
    by rw [hpost]; exact hcenter.2.2⟩

/-- Claim C1 (amended, confirmed): when no candidate exceeded the positive
threshold, the fallback force-writes label 1 at the clipped home cell for the
best anchor found, and the regression offset channels 1 and 2 are computed
against the world coordinates of the clipped home cell
(`xId * xStep * downscalingFactor + xMin`, and analogously in y) — not against
the best anchor's placement coordinates. -/
theorem c1_amended_fallback_uses_home_cell (ops : Ops) (inp : TargetInput)
    (anchors : List BBox) (diags : List ℚ) (lb : BBox) (o : ℤ) (t : Tensor)
    (hsx : 0 < inp.xStep * dfQ inp) (hsy : 0 < inp.yStep * dfQ inp)
    (hlx : inp.xMin ≤ lb.x) (hly : inp.yMin ≤ lb.y)
    (hfb : (searchStateOf ops inp anchors diags lb o t).maxIou < inp.positiveThreshold) :
    processObject ops inp anchors diags lb o t o (homeXId inp lb) (homeYId inp lb)
        (searchStateOf ops inp anchors diags lb o t).bestAnchorId 0 = 1 ∧
    processObject ops inp anchors diags lb o t o (homeXId inp lb) (homeYId inp lb)
        (searchStateOf ops inp anchors diags lb o t).bestAnchorId 1 =
      (lb.x - ((homeXId inp lb : ℚ) * inp.xStep * dfQ inp + inp.xMin)) /
        ops.sqrt ((searchStateOf ops inp anchors diags lb o t).bestAnchor.width ^ 2 +
          (searchStateOf ops inp anchors diags lb o t).bestAnchor.length ^ 2) ∧
    processObject ops inp anchors diags lb o t o (homeXId inp lb) (homeYId inp lb)
        (searchStateOf ops inp anchors diags lb o t).bestAnchorId 2 =
      (lb.y - ((homeYId inp lb : ℚ) * inp.yStep * dfQ inp + inp.yMin)) /
        ops.sqrt ((searchStateOf ops inp anchors diags lb o t).bestAnchor.width ^ 2 +
          (searchStateOf ops inp anchors diags lb o t).bestAnchor.length ^ 2) := by
  have hreads := fallbackLoop_home_reads ops inp lb o
    (searchStateOf ops inp anchors diags lb o t).bestAnchor
    (searchStateOf ops inp anchors diags lb o t).bestAnchorId
    (searchStateOf ops inp anchors diags lb o t).t
    (homeXId0_nonneg inp lb hsx hlx) (homeYId0_nonneg inp lb hsy hly)
  simp only [processObject]
  rw [if_pos hfb]
  exact hreads

/-! ## Claim C10: all-zero IOU leaves the zero-initialised best anchor -/

/-- A box with zero length and width projects to four copies of its center. -/
theorem boundingBox_degenerate (ops : Ops) (b : BBox) (hl : b.length = 0)
    (hw : b.width = 0) :
    boundingBox3DToTopDown ops b = [(b.x, b.y), (b.x, b.y), (b.x, b.y), (b.x, b.y)] := by
  simp [boundingBox3DToTopDown, rotatedX, rotatedY, hl, hw]

/-- Clipping an edge whose two endpoints coincide produces only copies of that
point (the mixed-sign intersection cases are impossible). -/
theorem clipStep_const (x1 y1 x2 y2 : ℚ) (c : ℚ × ℚ) :
    ∀ p ∈ clipStep x1 y1 x2 y2 (c, c), p = c := by
  intro p hp
  simp only [clipStep] at hp
  split_ifs at hp with h1 h2 h3
  · simp only [List.mem_singleton] at hp; subst hp; rfl
  · exact absurd h2.2 (not_lt.mpr h2.1)
  · exact absurd h3.1 (not_lt.mpr h3.2)
  · simp at hp

/-- Clipping a polygon all of whose vertices coincide keeps all vertices at
that point. -/
theorem clipPolyline_const (c : ℚ × ℚ) (poly : List (ℚ × ℚ)) (x1 y1 x2 y2 : ℚ)
    (hp : ∀ p ∈ poly, p = c) : ∀ p ∈ clipPolyline poly x1 y1 x2 y2, p = c := by
  intro p hpm
  unfold clipPolyline at hpm
  rw [List.mem_flatten] at hpm
  obtain ⟨l, hl, hpl⟩ := hpm
  rw [List.mem_map] at hl
  obtain ⟨pr, hpr, rfl⟩ := hl
  unfold pairsCyc at hpr
  have hmem := List.of_mem_zip (show (pr.1, pr.2) ∈ _ from hpr)
  have h1 : pr.1 = c := hp _ hmem.1
  have h2 : pr.2 = c := by
    rcases List.mem_append.mp hmem.2 with h | h
    · exact hp _ (List.mem_of_mem_drop h)
    · exact hp _ (List.mem_of_mem_take h)
  have hpr2 : pr = (c, c) := by
    rcases pr with ⟨a, b⟩
    simp only [Prod.mk.injEq]
    exact ⟨h1, h2⟩
  rw [hpr2] at hpl
  exact clipStep_const x1 y1 x2 y2 c p hpl

/-- Sutherland–Hodgman clipping of an all-coincident polygon keeps all
vertices coincident. -/
theorem sutherlandHodgman_const (c : ℚ × ℚ) (subject clipper : List (ℚ × ℚ))
    (hp : ∀ p ∈ subject, p = c) :
    ∀ p ∈ sutherlandHodgmanClip subject clipper, p = c := by
  unfold sutherlandHodgmanClip
  refine foldl_invariant _ (fun (poly : List (ℚ × ℚ)) => ∀ p ∈ poly, p = c) ?_ _ _ hp
  intro poly e hpoly
  exact clipPolyline_const c poly _ _ _ _ hpoly

/-- The shoelace sum of an all-coincident vertex list is zero. -/
theorem shoelaceSum_const (c : ℚ × ℚ) :
    ∀ (l : List (ℚ × ℚ)) (pj : ℚ × ℚ), pj = c → (∀ p ∈ l, p = c) →
      shoelaceSum pj l = 0 := by
  intro l
  induction l with
  | nil => intro pj _ _; rfl
  | cons p rest ih =>
      intro pj hpj hl
      have hp : p = c := hl p (by simp)
      rw [shoelaceSum, ih p hp (fun q hq => hl q (List.mem_cons_of_mem _ hq))]
      rw [hpj, hp]
      ring

/-- A polygon all of whose vertices coincide has area zero. -/
theorem polygonArea_const (c : ℚ × ℚ) (poly : List (ℚ × ℚ))
    (hp : ∀ p ∈ poly, p = c) : polygonArea poly = 0 := by
  unfold polygonArea
  cases hgl : poly.getLast? with
  | none => rfl
  | some pl =>
      have hpl : pl = c := hp _ (List.mem_of_getLast?_eq_some hgl)
      show |shoelaceSum pl poly / 2| = 0
      rw [shoelaceSum_const c poly pl hpl hp]
      simp

/-- The IOU of a zero-length zero-width box against anything is 0: the overlap
polygon degenerates to a point, so the numerator area is 0 (and `0 / q = 0`
in rational arithmetic even when the denominator is also 0). -/
theorem iou_degenerate_left (ops : Ops) (b1 b2 : BBox) (hl : b1.length = 0)
    (hw : b1.width = 0) : iou ops b1 b2 = 0 := by
  simp only [iou]
  have hconst : ∀ p ∈ boundingBox3DToTopDown ops b1, p = (b1.x, b1.y) := by
    rw [boundingBox_degenerate ops b1 hl hw]
    intro p hp
    simp only [List.mem_cons, List.mem_singleton, List.not_mem_nil, or_false] at hp
    rcases hp with h | h | h | h <;> exact h
  have hsh := sutherlandHodgman_const (b1.x, b1.y) (boundingBox3DToTopDown ops b1)
    (boundingBox3DToTopDown ops b2) hconst
  rw [polygonArea_const (b1.x, b1.y) _ hsh]
  simp

/-- Every anchor produced by `mkAnchors` from all-zero anchor dimensions has
zero length and width. -/
theorem mkAnchors_degenerate (inp : TargetInput)
    (hdim : ∀ d ∈ inp.anchorDimensions, d.1 = 0 ∧ d.2.1 = 0) :
    ∀ a ∈ mkAnchors inp, a.length = 0 ∧ a.width = 0 := by
  intro a ha
  unfold mkAnchors at ha
  rw [List.mem_map] at ha
  obtain ⟨i, hi, rfl⟩ := ha
  have hmem := getD_mem inp.anchorDimensions i (0, 0, 0) (by simpa using hi)
  exact ⟨(hdim _ hmem).1, (hdim _ hmem).2⟩

/-- Placing an anchor keeps the anchor's extents. -/
theorem placeAnchor_extents (ops : Ops) (inp : TargetInput) (lb a : BBox) (x y : ℚ) :
    (placeAnchor ops inp lb a x y).length = a.length ∧
    (placeAnchor ops inp lb a x y).width = a.width := ⟨rfl, rfl⟩

/-- With only degenerate anchors every IOU is 0, so the best tracker is never
updated: the search ends with `maxIou = 0`, the value-initialised best anchor,
and `bestAnchorId = 0`. -/
theorem search_degenerate (ops : Ops) (inp : TargetInput) (anchors : List BBox)
    (diags : List ℚ) (lb : BBox) (o : ℤ) (t : Tensor)
    (hdeg : ∀ a ∈ anchors, a.length = 0 ∧ a.width = 0) :
    (searchStateOf ops inp anchors diags lb o t).maxIou = 0 ∧
    (searchStateOf ops inp anchors diags lb o t).bestAnchor = zeroBox ∧
    (searchStateOf ops inp anchors diags lb o t).bestAnchorId = 0 := by
  unfold searchStateOf
  refine foldl_invariant _
    (fun (st : SState) =>
      st.maxIou = 0 ∧ st.bestAnchor = zeroBox ∧ st.bestAnchorId = 0) ?_ _ _
    ⟨rfl, rfl, rfl⟩
  intro st cell hst
  unfold searchCell
  refine foldl_invariant_mem _
    (fun (st : SState) =>
      st.maxIou = 0 ∧ st.bestAnchor = zeroBox ∧ st.bestAnchorId = 0) _ ?_ _ hst
  intro st' ai hai hst'
  have hdai := hdeg ai.2 (enumI_snd_mem anchors ai hai)
  have hiou : iou ops (placeAnchor ops inp lb ai.2
      ((cell.1 : ℚ) * inp.xStep * dfQ inp + inp.xMin)
      ((cell.2 : ℚ) * inp.yStep * dfQ inp + inp.yMin)) lb = 0 :=
    iou_degenerate_left ops _ lb ((placeAnchor_extents ops inp lb ai.2 _ _).1.trans hdai.1)
      ((placeAnchor_extents ops inp lb ai.2 _ _).2.trans hdai.2)
  simp only [stepAnchor, hiou]
  rw [hst'.1, if_neg (lt_irrefl 0)]
  exact ⟨rfl, hst'.2.1, hst'.2.2⟩

/-- Division of a finite value by finite zero is never finite. -/
theorem fpDiv_fin_zero_not_finite (a : ℚ) :
    fpFinite (fpDiv (FpVal.fin a) (FpVal.fin 0)) = false := by
  simp only [fpDiv, ne_eq, not_true_eq_false, if_false]
  split_ifs <;> rfl

/-- Taking `log` of a non-finite value is never finite. -/
theorem fpLog_not_finite (ops : Ops) (v : FpVal) (h : fpFinite v = false) :
    fpFinite (fpLog ops v) = false := by
  cases v with
  | fin q => simp [fpFinite] at h
  | posInf => rfl
  | negInf => rfl
  | nan => rfl

/-- Claim C10 (confirmed): when every anchor has zero extents the computed IOU
is 0 for every (cell, anchor) candidate, so the fallback runs with the
zero-initialised best anchor (`zeroBox`, anchor id 0) and force-writes label 1
at the clipped home cell; under IEEE-754 semantics the regression channel
formulas at that write — division by the zero height and `log` of ratios with
zero anchor dimensions — produce non-finite values. -/
theorem c10_degenerate_fallback_writes_nonfinite (ops : Ops) (inp : TargetInput)
    (lb : BBox) (o : ℤ) (t : Tensor)
    (hdim : ∀ d ∈ inp.anchorDimensions, d.1 = 0 ∧ d.2.1 = 0)
    (hpos : 0 < inp.positiveThreshold)
    (hsx : 0 < inp.xStep * dfQ inp) (hsy : 0 < inp.yStep * dfQ inp)
    (hlx : inp.xMin ≤ lb.x) (hly : inp.yMin ≤ lb.y) :
    (searchStateOf ops inp (mkAnchors inp) (mkDiagonals ops inp) lb o t).maxIou = 0 ∧
    (searchStateOf ops inp (mkAnchors inp) (mkDiagonals ops inp) lb o t).bestAnchor
      = zeroBox ∧
    (searchStateOf ops inp (mkAnchors inp) (mkDiagonals ops inp) lb o t).bestAnchorId
      = 0 ∧
    processObject ops inp (mkAnchors inp) (mkDiagonals ops inp) lb o t o
      (homeXId inp lb) (homeYId inp lb) 0 0 = 1 ∧
    fpFinite (fpChannel3 lb zeroBox) = false ∧
    fpFinite (fpChannel4 ops lb zeroBox) = false ∧
    fpFinite (fpChannel5 ops lb zeroBox) = false ∧
    fpFinite (fpChannel6 ops lb zeroBox) = false := by
  obtain ⟨hm, hb, hid⟩ := search_degenerate ops inp (mkAnchors inp) (mkDiagonals ops inp)
    lb o t (mkAnchors_degenerate inp hdim)
  refine ⟨hm, hb, hid, ?_, ?_, ?_, ?_, ?_⟩
  · simp only [processObject]
    rw [if_pos (by rw [hm]; exact hpos), hid]
    exact (fallbackLoop_home_reads ops inp lb o _ 0 _
      (homeXId0_nonneg inp lb hsx hlx) (homeYId0_nonneg inp lb hsy hly)).1
  · exact fpDiv_fin_zero_not_finite _
  · exact fpLog_not_finite ops _ (fpDiv_fin_zero_not_finite _)
  · exact fpLog_not_finite ops _ (fpDiv_fin_zero_not_finite _)
  · exact fpLog_not_finite ops _ (fpDiv_fin_zero_not_finite _)

/-! ## Witnesses for the target-encoder claims -/

section DecideEval4

attribute [local semireducible] Rat.add Rat.mul Rat.inv Rat.sub

set_option maxRecDepth 80000

/-- Witness for claim C1's amended theorem at the `c1inp` run: the fallback
fires and channel 1 holds the offset against the clipped home cell's world
x-coordinate over the best anchor's diagonal. -/
theorem c1_amended_witness :
    (0 : ℚ) < c1inp.xStep * dfQ c1inp ∧ (0 : ℚ) < c1inp.yStep * dfQ c1inp ∧
    c1inp.xMin ≤ c1lb.x ∧ c1inp.yMin ≤ c1lb.y ∧
    (searchStateOf testOps c1inp (mkAnchors c1inp) (mkDiagonals testOps c1inp) c1lb 0
        zeroT).maxIou < c1inp.positiveThreshold ∧
    processObject testOps c1inp (mkAnchors c1inp) (mkDiagonals testOps c1inp) c1lb 0 zeroT
        0 (homeXId c1inp c1lb) (homeYId c1inp c1lb)
        (searchStateOf testOps c1inp (mkAnchors c1inp) (mkDiagonals testOps c1inp) c1lb 0
          zeroT).bestAnchorId 1 =
      (c1lb.x - ((homeXId c1inp c1lb : ℚ) * c1inp.xStep * dfQ c1inp + c1inp.xMin)) /
        testOps.sqrt
          ((searchStateOf testOps c1inp (mkAnchors c1inp) (mkDiagonals testOps c1inp)
              c1lb 0 zeroT).bestAnchor.width ^ 2 +
            (searchStateOf testOps c1inp (mkAnchors c1inp) (mkDiagonals testOps c1inp)
              c1lb 0 zeroT).bestAnchor.length ^ 2) :=
  ⟨by decide, by decide, by decide, by decide, by decide,
    (c1_amended_fallback_uses_home_cell testOps c1inp (mkAnchors c1inp)
      (mkDiagonals testOps c1inp) c1lb 0 zeroT (by decide) (by decide) (by decide)
      (by decide) (by decide)).2.1⟩

/-- Witness for claim C2 at the `c1inp` run: channel 8 of the returned tensor
is 0 (sampled position). -/
theorem c2_witness : (0 : ℚ) ≤ testOps.pi ∧ c1tensor 0 3 2 0 8 = 0 := by
  refine ⟨by decide, ?_⟩
  have hok : createPillarsTarget testOps c1inp = TargetResult.ok c1tensor := rfl
  exact c2_channel8_always_zero testOps c1inp (by decide) c1tensor hok 0 3 2 0

/-- Witness for claim C8 at the `c8inp` run: the second object's center
`x = 99` is out of bounds, only one label is parsed, and the second leading
slice of the output tensor is zero (sampled position). -/
theorem c8_witness :
    1 < c8inp.objectDimensions.length ∧
    ((c8inp.objectPositions.getD 1 (0, 0, 0)).1 < c8inp.xMin ∨
      (c8inp.objectPositions.getD 1 (0, 0, 0)).1 ≥ c8inp.xMax ∨
      (c8inp.objectPositions.getD 1 (0, 0, 0)).2.1 < c8inp.yMin ∨
      (c8inp.objectPositions.getD 1 (0, 0, 0)).2.1 ≥ c8inp.yMax) ∧
    (mkLabels c8inp).length < c8inp.objectDimensions.length ∧
    tensorOfResult (createPillarsTarget testOps c8inp) 1 2 2 0 0 = 0 := by
  refine ⟨by decide, by decide,
    (c8_out_of_bounds_label_excluded testOps c8inp 1 (by decide) (by decide)).1, ?_⟩
  have hok : createPillarsTarget testOps c8inp
      = TargetResult.ok (tensorOfResult (createPillarsTarget testOps c8inp)) := rfl
  exact (c8_out_of_bounds_label_excluded testOps c8inp 1 (by decide) (by decide)).2
    _ hok 1 (by decide) 2 2 0 0

/-- Witness for claim C10 at the `c10inp` run: the degenerate anchor leaves
the zero-initialised best anchor, the fallback force-writes label 1 at the
home cell, and the IEEE reading of channel 3 is non-finite. -/
theorem c10_witness :
    (∀ d ∈ c10inp.anchorDimensions, d.1 = 0 ∧ d.2.1 = 0) ∧
    (0 : ℚ) < c10inp.positiveThreshold ∧
    (0 : ℚ) < c10inp.xStep * dfQ c10inp ∧ (0 : ℚ) < c10inp.yStep * dfQ c10inp ∧
    c10inp.xMin ≤ c10lb.x ∧ c10inp.yMin ≤ c10lb.y ∧
    (searchStateOf testOps c10inp (mkAnchors c10inp) (mkDiagonals testOps c10inp) c10lb 0
        zeroT).bestAnchor = zeroBox ∧
    processObject testOps c10inp (mkAnchors c10inp) (mkDiagonals testOps c10inp) c10lb 0
        zeroT 0 (homeXId c10inp c10lb) (homeYId c10inp c10lb) 0 0 = 1 ∧
    fpFinite (fpChannel3 c10lb zeroBox) = false :=
  ⟨by decide, by decide, by decide, by decide, by decide, by decide,
    (c10_degenerate_fallback_writes_nonfinite testOps c10inp c10lb 0 zeroT (by decide)
      (by decide) (by decide) (by decide) (by decide) (by decide)).2.1,
    (c10_degenerate_fallback_writes_nonfinite testOps c10inp c10lb 0 zeroT (by decide)
      (by decide) (by decide) (by decide) (by decide) (by decide)).2.2.2.1,
    (c10_degenerate_fallback_writes_nonfinite testOps c10inp c10lb 0 zeroT (by decide)
      (by decide) (by decide) (by decide) (by decide) (by decide)).2.2.2.2.1⟩

end DecideEval4

end PointPillars
